import Mathlib

set_option maxRecDepth 100000
set_option maxHeartbeats 1600000

/-!
Verification of core components of the eres-os kernel against its
specification: the VFS path layer, the ERESFS1 on-disk codec, the SimpleFs
mount/read/list logic, the sector cache, the keyboard scancode decoder and
the physical frame allocator.

Each Rust component is shallowly embedded: machine integers (u8/u32/u64,
usize) are modelled as `Nat` with explicit `% 2^w` wherever the Rust
arithmetic can wrap, byte buffers as `List Nat`, fallible operations as
`Except`, and stateful code as explicit state passing.  Block devices are
modelled as pure sector maps `Nat → Except BlockError (List Nat)`: a read
either yields the full 512-byte sector or fails without touching the
caller's buffer (this matches every device in the repository: the in-memory
test disks and the ATA PIO driver, whose error paths return before any data
word is transferred).
-/

/-- Decidable equality for `Except`, used to evaluate concrete runs. -/
instance {ε α : Type} [DecidableEq ε] [DecidableEq α] : DecidableEq (Except ε α) := by
  intro x y
  cases x <;> cases y
  case error.error a b =>
    exact if h : a = b then Decidable.isTrue (by rw [h]) else Decidable.isFalse (by simp [h])
  case error.ok a b => exact Decidable.isFalse (by simp)
  case ok.error a b => exact Decidable.isFalse (by simp)
  case ok.ok a b =>
    exact if h : a = b then Decidable.isTrue (by rw [h]) else Decidable.isFalse (by simp [h])

namespace EresOS

/-! ## VFS layer (src/fs/vfs.rs) -/

/-- Embeds `enum VfsError`. -/
inductive VfsError where
  | NotFound
  | AlreadyExists
  | InvalidPath
  | NotDirectory
  | NotFile
  | Io
  | Unsupported
deriving DecidableEq, Repr

/-- Embeds `enum NodeType`. -/
inductive NodeType where
  | File
  | Directory
deriving DecidableEq, Repr

/-- Embeds `struct Metadata`.  `NodeId` is modelled as a bare `Nat`. -/
structure Metadata where
  node_type : NodeType
  size : Nat
deriving DecidableEq, Repr

/-- Rust `str::split('/')`: the list of (possibly empty) chunks between
slashes.  `"/".split('/')` yields two empty chunks, exactly as in Rust. -/
def splitSlash : List Char → List (List Char)
  | [] => [[]]
  | c :: rest =>
    if c = '/' then [] :: splitSlash rest
    else
      match splitSlash rest with
      | [] => [[c]]
      | g :: gs => (c :: g) :: gs

/-- Filtering loop inside `split_path`: skip empty segments, reject `.` and
`..`, keep the rest in order. -/
def splitPathGo : List (List Char) → Except VfsError (List (List Char))
  | [] => Except.ok []
  | part :: rest =>
    if part = [] then splitPathGo rest
    else if part = ['.'] ∨ part = ['.', '.'] then Except.error VfsError.InvalidPath
    else (splitPathGo rest).map (fun out => part :: out)

/-- Embeds `split_path` (src/fs/vfs.rs): the path must begin with `/`,
otherwise `InvalidPath`; then split on `/` and filter. -/
def split_path (path : List Char) : Except VfsError (List (List Char)) :=
  match path with
  | [] => Except.error VfsError.InvalidPath
  | c :: _ =>
    if c = '/' then splitPathGo (splitSlash path)
    else Except.error VfsError.InvalidPath

/-- Abstract view of the `FileSystem` trait: the three methods
`resolve_path` uses. -/
structure FileSystem where
  root : Nat
  lookup : Nat → List Char → Except VfsError Nat
  metadata : Nat → Except VfsError Metadata

/-- The walking loop of `resolve_path`. -/
def resolveGo (fs : FileSystem) : List (List Char) → Nat → Except VfsError Nat
  | [], current => Except.ok current
  | part :: rest, current =>
    match fs.metadata current with
    | Except.error e => Except.error e
    | Except.ok meta =>
      if meta.node_type ≠ NodeType.Directory then Except.error VfsError.NotDirectory
      else
        match fs.lookup current part with
        | Except.error e => Except.error e
        | Except.ok next => resolveGo fs rest next

/-- Embeds `resolve_path` (src/fs/vfs.rs). -/
def resolve_path (fs : FileSystem) (path : List Char) : Except VfsError Nat :=
  match split_path path with
  | Except.error e => Except.error e
  | Except.ok parts => resolveGo fs parts fs.root

/-! ## ERESFS1 on-disk codec (crates/simplefs-core/src/lib.rs) -/

/-- `BLOCK_SIZE` (bytes per sector). -/
def BLOCK_SIZE : Nat := 512

/-- `MAGIC = *b"ERESFS1\0"` as byte values. -/
def MAGIC : List Nat := [0x45, 0x52, 0x45, 0x53, 0x46, 0x53, 0x31, 0x00]

/-- `DIR_ENTRY_NAME_LEN`. -/
def DIR_ENTRY_NAME_LEN : Nat := 32

/-- `DIR_ENTRY_SIZE`. -/
def DIR_ENTRY_SIZE : Nat := 64

/-- Embeds `enum FsError`. -/
inductive FsError where
  | InvalidMagic
  | InvalidVersion
  | InvalidBlockSize
  | InvalidData
  | NameTooLong
deriving DecidableEq, Repr

/-- `copy_from_slice` into `out[off .. off + src.length]`. -/
def copyBytes (out : List Nat) (off : Nat) (src : List Nat) : List Nat :=
  out.take off ++ src ++ out.drop (off + src.length)

/-- `u32::to_le_bytes` of a value already reduced below `2^32`. -/
def u32le (v : Nat) : List Nat :=
  [v % 256, v / 256 % 256, v / 65536 % 256, v / 16777216 % 256]

/-- Embeds `write_u32`: splice the little-endian bytes of `v` at `off`. -/
def write_u32 (out : List Nat) (off : Nat) (v : Nat) : List Nat :=
  copyBytes out off (u32le v)

/-- Embeds `read_u32`: `u32::from_le_bytes` of the four bytes at `off`. -/
def read_u32 (input : List Nat) (off : Nat) : Nat :=
  input.getD off 0 + 256 * input.getD (off + 1) 0 +
    65536 * input.getD (off + 2) 0 + 16777216 * input.getD (off + 3) 0

/-- Embeds `struct Superblock`; every `u32` field is a `Nat` below `2^32`. -/
structure Superblock where
  magic : List Nat
  version : Nat
  block_size : Nat
  total_blocks : Nat
  dir_entry_count : Nat
  dir_start_block : Nat
  dir_block_count : Nat
  data_start_block : Nat
deriving DecidableEq, Repr

/-- Embeds `Superblock::new`; `1 + dir_block_count` is u32 addition. -/
def Superblock.new (total_blocks dir_entry_count dir_block_count : Nat) : Superblock where
  magic := MAGIC
  version := 1
  block_size := BLOCK_SIZE
  total_blocks := total_blocks
  dir_entry_count := dir_entry_count
  dir_start_block := 1
  dir_block_count := dir_block_count
  data_start_block := (1 + dir_block_count) % 2 ^ 32

/-- Embeds `Superblock::encode`: zero-fill 512 bytes, copy the magic, then
write the seven u32 fields at offsets 8, 12, ..., 32. -/
def Superblock.encode (sb : Superblock) : List Nat :=
  write_u32 (write_u32 (write_u32 (write_u32 (write_u32 (write_u32 (write_u32
    (copyBytes (List.replicate BLOCK_SIZE 0) 0 sb.magic)
    8 sb.version) 12 sb.block_size) 16 sb.total_blocks) 20 sb.dir_entry_count)
    24 sb.dir_start_block) 28 sb.dir_block_count) 32 sb.data_start_block

/-- Embeds `Superblock::validate`. -/
def Superblock.validate (sb : Superblock) : Except FsError Unit :=
  if sb.magic ≠ MAGIC then Except.error FsError.InvalidMagic
  else if sb.version ≠ 1 then Except.error FsError.InvalidVersion
  else if sb.block_size ≠ BLOCK_SIZE then Except.error FsError.InvalidBlockSize
  else Except.ok ()

/-- Embeds `Superblock::decode`: read the fields back, then validate. -/
def Superblock.decode (input : List Nat) : Except FsError Superblock :=
  let sb : Superblock :=
    { magic := input.take 8
      version := read_u32 input 8
      block_size := read_u32 input 12
      total_blocks := read_u32 input 16
      dir_entry_count := read_u32 input 20
      dir_start_block := read_u32 input 24
      dir_block_count := read_u32 input 28
      data_start_block := read_u32 input 32 }
  match sb.validate with
  | Except.error e => Except.error e
  | Except.ok _ => Except.ok sb

/-- Embeds `struct DirEntry` (on-disk form); `name` is the 32-byte
zero-padded array, `name_len` the u8 length field. -/
structure DirEntry where
  name : List Nat
  name_len : Nat
  file_start_block : Nat
  file_block_count : Nat
  file_size : Nat
  flags : Nat
deriving DecidableEq, Repr

/-- Embeds `DirEntry::new`: the (UTF-8 byte) name must be non-empty and at
most 32 bytes; it is stored zero-padded. -/
def DirEntry.new (name : List Nat) (file_start_block file_block_count file_size : Nat) :
    Except FsError DirEntry :=
  if name = [] ∨ name.length > DIR_ENTRY_NAME_LEN then Except.error FsError.NameTooLong
  else Except.ok
    { name := name ++ List.replicate (DIR_ENTRY_NAME_LEN - name.length) 0
      name_len := name.length
      file_start_block := file_start_block
      file_block_count := file_block_count
      file_size := file_size
      flags := 0 }

/-- Embeds `DirEntry::is_unused`. -/
def DirEntry.is_unused (e : DirEntry) : Bool :=
  e.name_len = 0

/-- Embeds `DirEntry::encode`: zero-fill 64 bytes, copy the 32-byte name,
store `name_len` at offset 32, then the four u32 fields at 36, 40, 44, 48. -/
def DirEntry.encode (e : DirEntry) : List Nat :=
  write_u32 (write_u32 (write_u32 (write_u32
    (copyBytes (copyBytes (List.replicate DIR_ENTRY_SIZE 0) 0 e.name) 32 [e.name_len])
    36 e.file_start_block) 40 e.file_block_count) 44 e.file_size) 48 e.flags

/-- Embeds `DirEntry::decode` (infallible at the byte level). -/
def DirEntry.decode (input : List Nat) : DirEntry where
  name := input.take DIR_ENTRY_NAME_LEN
  name_len := input.getD 32 0
  file_start_block := read_u32 input 36
  file_block_count := read_u32 input 40
  file_size := read_u32 input 44
  flags := read_u32 input 48

/-- UTF-8 validity of a byte sequence, as checked by
`core::str::from_utf8` (RFC 3629: no overlongs, no surrogates, max
U+10FFFF). -/
def isValidUtf8 : List Nat → Bool
  | [] => true
  | b :: rest =>
    if b < 0x80 then isValidUtf8 rest
    else if 0xC2 ≤ b ∧ b ≤ 0xDF then
      match rest with
      | c1 :: r => decide (0x80 ≤ c1 ∧ c1 ≤ 0xBF) && isValidUtf8 r
      | [] => false
    else if b = 0xE0 then
      match rest with
      | c1 :: c2 :: r =>
        decide (0xA0 ≤ c1 ∧ c1 ≤ 0xBF) && decide (0x80 ≤ c2 ∧ c2 ≤ 0xBF) && isValidUtf8 r
      | _ => false
    else if (0xE1 ≤ b ∧ b ≤ 0xEC) ∨ b = 0xEE ∨ b = 0xEF then
      match rest with
      | c1 :: c2 :: r =>
        decide (0x80 ≤ c1 ∧ c1 ≤ 0xBF) && decide (0x80 ≤ c2 ∧ c2 ≤ 0xBF) && isValidUtf8 r
      | _ => false
    else if b = 0xED then
      match rest with
      | c1 :: c2 :: r =>
        decide (0x80 ≤ c1 ∧ c1 ≤ 0x9F) && decide (0x80 ≤ c2 ∧ c2 ≤ 0xBF) && isValidUtf8 r
      | _ => false
    else if b = 0xF0 then
      match rest with
      | c1 :: c2 :: c3 :: r =>
        decide (0x90 ≤ c1 ∧ c1 ≤ 0xBF) && decide (0x80 ≤ c2 ∧ c2 ≤ 0xBF) &&
          decide (0x80 ≤ c3 ∧ c3 ≤ 0xBF) && isValidUtf8 r
      | _ => false
    else if 0xF1 ≤ b ∧ b ≤ 0xF3 then
      match rest with
      | c1 :: c2 :: c3 :: r =>
        decide (0x80 ≤ c1 ∧ c1 ≤ 0xBF) && decide (0x80 ≤ c2 ∧ c2 ≤ 0xBF) &&
          decide (0x80 ≤ c3 ∧ c3 ≤ 0xBF) && isValidUtf8 r
      | _ => false
    else if b = 0xF4 then
      match rest with
      | c1 :: c2 :: c3 :: r =>
        decide (0x80 ≤ c1 ∧ c1 ≤ 0x8F) && decide (0x80 ≤ c2 ∧ c2 ≤ 0xBF) &&
          decide (0x80 ≤ c3 ∧ c3 ≤ 0xBF) && isValidUtf8 r
      | _ => false
    else false

/-- Embeds `DirEntry::name`: bounds-check `name_len`, then UTF-8-validate
`name[..name_len]`; returns the validated bytes. -/
def DirEntry.nameChecked (e : DirEntry) : Except FsError (List Nat) :=
  if e.name_len > DIR_ENTRY_NAME_LEN then Except.error FsError.InvalidData
  else if isValidUtf8 (e.name.take e.name_len) then Except.ok (e.name.take e.name_len)
  else Except.error FsError.InvalidData

/-! ## Block devices (src/storage/block.rs) and SimpleFs (src/fs/simplefs.rs) -/

/-- Embeds `enum BlockError`. -/
inductive BlockError where
  | InvalidBufferSize
  | DeviceFault
  | Timeout
  | Unsupported
deriving DecidableEq, Repr

/-- A block device as a pure sector map: each LBA yields the full sector
contents or an error (see the device model note in the file header). -/
def Device : Type := Nat → Except BlockError (List Nat)

/-- Embeds `map_block_error` (src/fs/simplefs.rs). -/
def map_block_error : BlockError → VfsError
  | BlockError.InvalidBufferSize => VfsError.Io
  | BlockError.DeviceFault => VfsError.Io
  | BlockError.Timeout => VfsError.Io
  | BlockError.Unsupported => VfsError.Unsupported

/-- Embeds `map_fs_error` (src/fs/simplefs.rs). -/
def map_fs_error : FsError → VfsError
  | FsError.InvalidMagic => VfsError.Io
  | FsError.InvalidVersion => VfsError.Io
  | FsError.InvalidBlockSize => VfsError.Io
  | FsError.InvalidData => VfsError.Io
  | FsError.NameTooLong => VfsError.InvalidPath

/-- Embeds `struct SimpleFs`: the device, the decoded superblock and the
mount-time list of live directory entries. -/
structure SimpleFs where
  device : Device
  superblock : Superblock
  entries : List DirEntry

/-- The directory-block read loop of `SimpleFs::mount`: read
`dir_block_count` sectors starting at `dir_start_block`, concatenated. -/
def readDirBlocks (device : Device) (dir_start_block : Nat) :
    Nat → Except VfsError (List Nat)
  | 0 => Except.ok []
  | n + 1 =>
    match device dir_start_block with
    | Except.error e => Except.error (map_block_error e)
    | Except.ok sector =>
      match readDirBlocks device (dir_start_block + 1) n with
      | Except.error e => Except.error e
      | Except.ok rest => Except.ok (sector ++ rest)

/-- The directory-entry scan of `SimpleFs::mount`: for each slot `i` below
`dir_entry_count`, bounds-check `(i+1)*64` against the buffer, decode the
64-byte record, and keep it when it is not unused. -/
def scanEntries (dir_data : List Nat) : Nat → Nat → Except VfsError (List DirEntry)
  | _, 0 => Except.ok []
  | i, n + 1 =>
    let start := i * DIR_ENTRY_SIZE
    if start + DIR_ENTRY_SIZE > dir_data.length then Except.error VfsError.Io
    else
      let raw := (dir_data.drop start).take DIR_ENTRY_SIZE
      let entry := DirEntry.decode raw
      match scanEntries dir_data (i + 1) n with
      | Except.error e => Except.error e
      | Except.ok rest =>
        Except.ok (if entry.is_unused then rest else entry :: rest)

/-- Embeds `SimpleFs::mount`: read and decode the superblock from block 0,
read the directory blocks, scan the entry slots. -/
def SimpleFs.mount (device : Device) : Except VfsError SimpleFs :=
  match device 0 with
  | Except.error e => Except.error (map_block_error e)
  | Except.ok sector =>
    match Superblock.decode sector with
    | Except.error e => Except.error (map_fs_error e)
    | Except.ok sb =>
      match readDirBlocks device sb.dir_start_block sb.dir_block_count with
      | Except.error e => Except.error e
      | Except.ok dir_data =>
        match scanEntries dir_data 0 sb.dir_entry_count with
        | Except.error e => Except.error e
        | Except.ok entries => Except.ok ⟨device, sb, entries⟩

/-- Embeds `SimpleFs::entry_count`. -/
def SimpleFs.entry_count (fs : SimpleFs) : Nat :=
  fs.entries.length

/-- Embeds `SimpleFs::node_entry_index`. -/
def node_entry_index (node : Nat) : Option Nat :=
  if node = 0 then none else some (node - 1)

/-- Embeds `SimpleFs::root`. -/
def SimpleFs.root (_fs : SimpleFs) : Nat := 0

/-- Embeds `SimpleFs::metadata`: the root is a directory sized by the entry
count; any other node is a file addressed by `node - 1`. -/
def SimpleFs.metadata (fs : SimpleFs) (node : Nat) : Except VfsError Metadata :=
  if node = 0 then Except.ok ⟨NodeType.Directory, fs.entries.length⟩
  else
    match node_entry_index node with
    | none => Except.error VfsError.NotFound
    | some index =>
      match fs.entries.get? index with
      | none => Except.error VfsError.NotFound
      | some entry => Except.ok ⟨NodeType.File, entry.file_size⟩

/-- The while-loop of `SimpleFs::read`, with a structural fuel that the
callers instantiate above the loop's iteration count; returns the final
`read_total` and the bytes written to `out[..read_total]`. -/
def readLoop (device : Device) (file_start_block max_bytes : Nat) :
    Nat → Nat → List Nat → Nat → Except VfsError (Nat × List Nat)
  | cursor, read_total, acc, fuel =>
    if read_total < max_bytes then
      match fuel with
      | 0 => Except.error VfsError.Io
      | fuel + 1 =>
        let block_index := cursor / BLOCK_SIZE
        let block_offset := cursor % BLOCK_SIZE
        let lba := file_start_block + block_index
        match device lba with
        | Except.error e => Except.error (map_block_error e)
        | Except.ok scratch =>
          let to_copy := min (max_bytes - read_total) (BLOCK_SIZE - block_offset)
          readLoop device file_start_block max_bytes (cursor + to_copy)
            (read_total + to_copy) (acc ++ (scratch.drop block_offset).take to_copy) fuel
    else Except.ok (read_total, acc)

/-- Embeds `SimpleFs::read`. -/
def SimpleFs.read (fs : SimpleFs) (node offset out_len : Nat) :
    Except VfsError (Nat × List Nat) :=
  if node = 0 then Except.error VfsError.NotFile
  else
    match node_entry_index node with
    | none => Except.error VfsError.NotFound
    | some index =>
      match fs.entries.get? index with
      | none => Except.error VfsError.NotFound
      | some entry =>
        if offset ≥ entry.file_size then Except.ok (0, [])
        else
          let max_bytes := min out_len (entry.file_size - offset)
          readLoop fs.device entry.file_start_block max_bytes offset 0 [] max_bytes

/-- Embeds `vfs::DirEntry` (the VFS-level directory entry); `name` holds
the 32-byte zero-padded UTF-8 bytes. -/
structure VfsDirEntry where
  name : List Nat
  name_len : Nat
  node : Nat
  node_type : NodeType
deriving DecidableEq, Repr

/-- Embeds `vfs::DirEntry::new`: non-empty name of at most 32 bytes. -/
def VfsDirEntry.new (name : List Nat) (node : Nat) (node_type : NodeType) :
    Except VfsError VfsDirEntry :=
  if name = [] ∨ name.length > 32 then Except.error VfsError.InvalidPath
  else Except.ok
    { name := name ++ List.replicate (32 - name.length) 0
      name_len := name.length
      node := node
      node_type := node_type }

/-- The per-entry loop of `SimpleFs::list`: `entry_name` (a `name()` that
succeeded, else `VfsError::Io`), then `VfsDirEntry::new` tagged `File`. -/
def listGo : List DirEntry → Nat → Except VfsError (List VfsDirEntry)
  | [], _ => Except.ok []
  | entry :: rest, i =>
    match entry.nameChecked with
    | Except.error _ => Except.error VfsError.Io
    | Except.ok name =>
      match VfsDirEntry.new name (i + 1) NodeType.File with
      | Except.error e => Except.error e
      | Except.ok ve =>
        match listGo rest (i + 1) with
        | Except.error e => Except.error e
        | Except.ok out => Except.ok (ve :: out)

/-- Embeds `SimpleFs::list`. -/
def SimpleFs.list (fs : SimpleFs) (dir : Nat) : Except VfsError (List VfsDirEntry) :=
  if dir ≠ 0 then Except.error VfsError.NotDirectory
  else listGo fs.entries 0

/-! ## Keyboard decoder (src/arch/x86_64/keyboard.rs) -/

/-- `BUFFER_SIZE` of the scancode event ring. -/
def BUFFER_SIZE : Nat := 256

/-- Embeds `enum KeyEvent`; `Char` carries the ASCII byte. -/
inductive KeyEvent where
  | Char (ch : Nat)
  | Enter
  | Backspace
  | Up
  | Down
deriving DecidableEq, Repr

/-- Embeds `struct KeyboardState`; `e0` models the `e0_prefix` flag. -/
structure KeyboardState where
  shift : Bool
  e0 : Bool
  head : Nat
  tail : Nat
  buffer : List Nat
deriving DecidableEq, Repr

/-- Embeds `KeyboardState::new`. -/
def KeyboardState.init : KeyboardState where
  shift := false
  e0 := false
  head := 0
  tail := 0
  buffer := List.replicate BUFFER_SIZE 0

/-- Embeds the `KEY_*` encoding (`encode_event`). -/
def encode_event : KeyEvent → Nat
  | KeyEvent.Char ch => ch
  | KeyEvent.Enter => 0x100
  | KeyEvent.Backspace => 0x101
  | KeyEvent.Up => 0x102
  | KeyEvent.Down => 0x103

/-- Embeds `decode_event`. -/
def decode_event (code : Nat) : Option KeyEvent :=
  if code ≤ 0xFF then some (KeyEvent.Char code)
  else if code = 0x100 then some KeyEvent.Enter
  else if code = 0x101 then some KeyEvent.Backspace
  else if code = 0x102 then some KeyEvent.Up
  else if code = 0x103 then some KeyEvent.Down
  else none

/-- Embeds `push_event`: drop the event when the ring is full, else store
it at `head` and advance `head` modulo the ring size. -/
def push_event (s : KeyboardState) (event : KeyEvent) : KeyboardState :=
  let next_head := (s.head + 1) % BUFFER_SIZE
  if next_head = s.tail then s
  else { s with buffer := s.buffer.set s.head (encode_event event), head := next_head }

/-- Embeds `decode_scancode`: the German QWERTZ translation table. -/
def decode_scancode (scancode : Nat) (shift : Bool) : Option Nat :=
  match scancode with
  | 0x01 => some 0x1B
  | 0x02 => some (if shift then 33 else 49)
  | 0x03 => some (if shift then 34 else 50)
  | 0x04 => some (if shift then 35 else 51)
  | 0x05 => some (if shift then 36 else 52)
  | 0x06 => some (if shift then 37 else 53)
  | 0x07 => some (if shift then 38 else 54)
  | 0x08 => some (if shift then 47 else 55)
  | 0x09 => some (if shift then 40 else 56)
  | 0x0A => some (if shift then 41 else 57)
  | 0x0B => some (if shift then 61 else 48)
  | 0x0C => some (if shift then 63 else 45)
  | 0x0D => some (if shift then 96 else 43)
  | 0x0E => some 8
  | 0x0F => some 9
  | 0x10 => some (if shift then 81 else 113)
  | 0x11 => some (if shift then 87 else 119)
  | 0x12 => some (if shift then 69 else 101)
  | 0x13 => some (if shift then 82 else 114)
  | 0x14 => some (if shift then 84 else 116)
  | 0x15 => some (if shift then 90 else 122)
  | 0x16 => some (if shift then 85 else 117)
  | 0x17 => some (if shift then 73 else 105)
  | 0x18 => some (if shift then 79 else 111)
  | 0x19 => some (if shift then 80 else 112)
  | 0x1A => some (if shift then 85 else 117)
  | 0x1B => some (if shift then 43 else 35)
  | 0x1C => some 10
  | 0x1E => some (if shift then 65 else 97)
  | 0x1F => some (if shift then 83 else 115)
  | 0x20 => some (if shift then 68 else 100)
  | 0x21 => some (if shift then 70 else 102)
  | 0x22 => some (if shift then 71 else 103)
  | 0x23 => some (if shift then 72 else 104)
  | 0x24 => some (if shift then 74 else 106)
  | 0x25 => some (if shift then 75 else 107)
  | 0x26 => some (if shift then 76 else 108)
  | 0x27 => some (if shift then 58 else 59)
  | 0x28 => some (if shift then 34 else 39)
  | 0x29 => some (if shift then 126 else 96)
  | 0x2B => some (if shift then 42 else 39)
  | 0x2C => some (if shift then 89 else 121)
  | 0x2D => some (if shift then 88 else 120)
  | 0x2E => some (if shift then 67 else 99)
  | 0x2F => some (if shift then 86 else 118)
  | 0x30 => some (if shift then 66 else 98)
  | 0x31 => some (if shift then 78 else 110)
  | 0x32 => some (if shift then 77 else 109)
  | 0x33 => some (if shift then 59 else 44)
  | 0x34 => some (if shift then 58 else 46)
  | 0x35 => some (if shift then 95 else 45)
  | 0x39 => some 32
  | _ => none

/-- Embeds `feed_scancode`: the per-byte state machine (E0 prefix, shift
make/break, release filtering, QWERTZ translation, event push). -/
def feed_scancode (s : KeyboardState) (scancode : Nat) : KeyboardState :=
  if scancode = 0xE0 then { s with e0 := true }
  else if s.e0 then
    let s := { s with e0 := false }
    if scancode &&& 0x80 ≠ 0 then s
    else if scancode = 0x48 then push_event s KeyEvent.Up
    else if scancode = 0x50 then push_event s KeyEvent.Down
    else s
  else if scancode = 0x2A ∨ scancode = 0x36 then { s with shift := true }
  else if scancode = 0xAA ∨ scancode = 0xB6 then { s with shift := false }
  else if scancode &&& 0x80 ≠ 0 then s
  else
    match decode_scancode scancode s.shift with
    | none => s
    | some ch =>
      if ch = 8 then push_event s KeyEvent.Backspace
      else if ch = 10 then push_event s KeyEvent.Enter
      else push_event s (KeyEvent.Char ch)

/-- Embeds `try_read_key` (the consumer): pop one ring slot and decode it. -/
def try_read_key (s : KeyboardState) : Option KeyEvent × KeyboardState :=
  if s.head = s.tail then (none, s)
  else
    let code := s.buffer.getD s.tail 0
    (decode_event code, { s with tail := (s.tail + 1) % BUFFER_SIZE })

/-- Feed a whole scancode sequence. -/
def feedAll (s : KeyboardState) (codes : List Nat) : KeyboardState :=
  codes.foldl feed_scancode s

/-! ## Sector cache (src/storage/cache.rs) -/

/-- Embeds `struct CacheLine`. -/
structure CacheLine where
  valid : Bool
  lba : Nat
  last_use : Nat
  data : List Nat
deriving DecidableEq, Repr

/-- Embeds `CacheLine::empty`. -/
def CacheLine.empty : CacheLine where
  valid := false
  lba := 0
  last_use := 0
  data := List.replicate 512 0

/-- Embeds `struct CacheStats`. -/
structure CacheStats where
  hits : Nat
  misses : Nat
deriving DecidableEq, Repr

/-- Embeds the mutable part of `struct CachedBlockDevice` (the inner device
is passed separately as a pure sector map). -/
structure CacheState where
  lines : List CacheLine
  ticks : Nat
  hits : Nat
  misses : Nat
deriving DecidableEq, Repr

/-- Embeds `CachedBlockDevice::new`: `max(capacity, 1)` empty lines, tick
counter starting at 1. -/
def CacheState.new (capacity : Nat) : CacheState where
  lines := List.replicate (max capacity 1) CacheLine.empty
  ticks := 1
  hits := 0
  misses := 0

/-- Embeds `CachedBlockDevice::stats`. -/
def CacheState.stats (c : CacheState) : CacheStats :=
  ⟨c.hits, c.misses⟩

/-- Rust `Iterator::min_by_key` over the enumerated lines with key
`if valid then last_use else 0`; on ties the LAST minimal element wins,
exactly as documented for `min_by_key`. -/
def victim_index (lines : List CacheLine) : Option Nat :=
  (lines.enum.foldl
    (fun acc il =>
      let k := if il.2.valid then il.2.last_use else 0
      match acc with
      | none => some (il.1, k)
      | some jk => if k ≤ jk.2 then some (il.1, k) else some jk)
    none).map Prod.fst

/-- Embeds `CachedBlockDevice::read_sector`.  Returns the bytes placed in
`out` (on success) together with the new cache state. -/
def cached_read_sector (inner : Device) (c : CacheState) (lba out_len : Nat) :
    Except BlockError (List Nat) × CacheState :=
  if out_len ≠ 512 then (Except.error BlockError.InvalidBufferSize, c)
  else
    let ticks := (c.ticks + 1) % 2 ^ 64
    let c := { c with ticks := ticks }
    match c.lines.findIdx? (fun l => l.valid && l.lba = lba) with
    | some i =>
      let line := c.lines.getD i CacheLine.empty
      (Except.ok line.data,
        { c with
          hits := (c.hits + 1) % 2 ^ 64
          lines := c.lines.set i { line with last_use := ticks } })
    | none =>
      let c := { c with misses := (c.misses + 1) % 2 ^ 64 }
      let replace_idx := (victim_index c.lines).getD 0
      match inner lba with
      | Except.error e => (Except.error e, c)
      | Except.ok blk =>
        (Except.ok blk,
          { c with
            lines := c.lines.set replace_idx
              { valid := true, lba := lba, last_use := ticks, data := blk } })

/-! ## Physical frame allocator (src/memory/frame_allocator.rs) -/

/-- Embeds `struct MemoryMapEntry` (src/memory/bootinfo.rs). -/
structure MemoryMapEntry where
  base : Nat
  length : Nat
  entry_type : Nat
  acpi_extended_attributes : Nat
deriving DecidableEq, Repr

/-- `FRAME_SIZE` (4 KiB). -/
def FRAME_SIZE : Nat := 4096

/-- `MIN_ALLOCATABLE_ADDR` (2 MiB). -/
def MIN_ALLOCATABLE_ADDR : Nat := 0x200000

/-- Embeds `struct PhysicalFrame`. -/
structure PhysicalFrame where
  start : Nat
deriving DecidableEq, Repr

/-- Embeds `struct FrameStats`. -/
structure FrameStats where
  total_frames : Nat
  allocated_frames : Nat
  free_frames : Nat
deriving DecidableEq, Repr

/-- Embeds `align_up`: `(value + mask) & !mask` in wrapping u64
arithmetic, where `!mask = 2^64 - 1 - mask`. -/
def align_up (value align : Nat) : Nat :=
  let mask := align - 1
  ((value + mask) % 2 ^ 64) &&& (2 ^ 64 - 1 - mask)

/-- Embeds `struct FrameAllocator`. -/
structure FrameAllocator where
  regions : List MemoryMapEntry
  region_index : Nat
  next_addr : Nat
  region_end : Nat
  min_addr : Nat
deriving Repr

/-- The while-loop of `select_next_region`, with fuel equal to the number
of regions left to examine: skip non-usable and empty regions, clip to
`[max(base, min_addr), saturating(base + length))`, and stop at the first
region with a non-empty clipped range; when the regions are exhausted set
the cursor to the empty range `[0, 0)`. -/
def selectGo (a : FrameAllocator) : Nat → FrameAllocator
  | 0 => { a with next_addr := 0, region_end := 0 }
  | fuel + 1 =>
    match a.regions.get? a.region_index with
    | none => { a with next_addr := 0, region_end := 0 }
    | some region =>
      let a := { a with region_index := a.region_index + 1 }
      if region.entry_type ≠ 1 ∨ region.length = 0 then selectGo a fuel
      else
        let start := max region.base a.min_addr
        let stop := min (region.base + region.length) (2 ^ 64 - 1)
        if start ≥ stop then selectGo a fuel
        else { a with next_addr := start, region_end := stop }

/-- Embeds `FrameAllocator::select_next_region`. -/
def select_next_region (a : FrameAllocator) : FrameAllocator :=
  selectGo a (a.regions.length - a.region_index)

/-- Embeds `FrameAllocator::new`. -/
def FrameAllocator.new (regions : List MemoryMapEntry) (min_addr : Nat) : FrameAllocator :=
  select_next_region
    { regions := regions, region_index := 0, next_addr := 0, region_end := 0
      min_addr := min_addr }

/-- The `loop` of `FrameAllocator::alloc`, with fuel bounding the number of
abandoned regions; `frame_start + FRAME_SIZE` is wrapping u64 addition. -/
def allocGo (a : FrameAllocator) : Nat → Option PhysicalFrame × FrameAllocator
  | 0 => (none, a)
  | fuel + 1 =>
    let a := if a.next_addr ≥ a.region_end then select_next_region a else a
    if a.next_addr ≥ a.region_end then (none, a)
    else
      let frame_start := align_up a.next_addr FRAME_SIZE
      if (frame_start + FRAME_SIZE) % 2 ^ 64 > a.region_end then
        allocGo { a with next_addr := a.region_end } fuel
      else
        (some ⟨frame_start⟩, { a with next_addr := (frame_start + FRAME_SIZE) % 2 ^ 64 })

/-- Embeds `FrameAllocator::alloc`; the fuel `regions.length -
region_index + 1` dominates the loop's iteration count, because every
iteration that does not return consumes one region. -/
def FrameAllocator.alloc (a : FrameAllocator) : Option PhysicalFrame × FrameAllocator :=
  allocGo a (a.regions.length - a.region_index + 1)

/-- The allocator after `n` calls of `alloc`. -/
def allocN (a : FrameAllocator) : Nat → FrameAllocator
  | 0 => a
  | n + 1 => (FrameAllocator.alloc (allocN a n)).2

/-- Embeds `count_usable_frames`. -/
def count_usable_frames (entries : List MemoryMapEntry) (min_addr : Nat) : Nat :=
  entries.foldl
    (fun count region =>
      if region.entry_type ≠ 1 ∨ region.length = 0 then count
      else
        let start := align_up (max region.base min_addr) FRAME_SIZE
        let stop := align_up (min (region.base + region.length) (2 ^ 64 - 1)) FRAME_SIZE
        if start < stop then count + (stop - start) / FRAME_SIZE else count)
    0

/-- The `cfg(eres_kernel)` global allocator state: the cursor plus the
`TOTAL_FRAMES` and `ALLOCATED_FRAMES` counters. -/
structure GlobalFrameState where
  allocator : FrameAllocator
  total_frames : Nat
  allocated_frames : Nat

/-- Embeds `init_from_memory_map`. -/
def init_from_memory_map (entries : List MemoryMapEntry) : GlobalFrameState where
  allocator := FrameAllocator.new entries MIN_ALLOCATABLE_ADDR
  total_frames := count_usable_frames entries MIN_ALLOCATABLE_ADDR
  allocated_frames := 0

/-- Embeds `alloc_frame` (the counter update is u64 `fetch_add`). -/
def alloc_frame (g : GlobalFrameState) : Option PhysicalFrame × GlobalFrameState :=
  let fa := g.allocator.alloc
  (fa.1,
    { allocator := fa.2
      total_frames := g.total_frames
      allocated_frames :=
        if fa.1.isSome then (g.allocated_frames + 1) % 2 ^ 64 else g.allocated_frames })

/-- Embeds `stats`: `free_frames` is `saturating_sub`, i.e. `Nat`
subtraction. -/
def GlobalFrameState.stats (g : GlobalFrameState) : FrameStats where
  total_frames := g.total_frames
  allocated_frames := g.allocated_frames
  free_frames := g.total_frames - g.allocated_frames

/-! ## Derived notions and concrete fixtures used by the theorems -/

/-- Byte `i` of a file laid out in 512-byte blocks starting at
`start_block`, over a sector map `blocks`. -/
def fileByte (blocks : Nat → List Nat) (start_block i : Nat) : Nat :=
  (blocks (start_block + i / BLOCK_SIZE)).getD (i % BLOCK_SIZE) 0

/-- A memory map whose single usable region touches the top of the 64-bit
address space (base `2^64 - 4000`, length `0x1000`). -/
def wrapRegions : List MemoryMapEntry :=
  [⟨0xFFFFFFFFFFFFF060, 0x1000, 1, 0⟩]

/-- A memory map listing a high usable region before a low one. -/
def unsortedRegions : List MemoryMapEntry :=
  [⟨0x300000, 0x1000, 1, 0⟩, ⟨0x200000, 0x1000, 1, 0⟩]

/-- A memory map with a single usable region of 4097 bytes at 2 MiB: one
full frame plus one trailing byte. -/
def slackRegions : List MemoryMapEntry :=
  [⟨0x200000, 4097, 1, 0⟩]

/-- A memory map whose usable regions are listed in increasing address
order but whose second region touches the top of the address space. -/
def sortedWrapRegions : List MemoryMapEntry :=
  [⟨0x200000, 0x1000, 1, 0⟩, ⟨0xFFFFFFFFFFFFF060, 0x1000, 1, 0⟩]

/-- A backing device holding sector 0 and failing everywhere else. -/
def oneSectorDevice : Device := fun lba =>
  if lba = 0 then Except.ok (List.replicate 512 7) else Except.error BlockError.DeviceFault

/-- First cache read: LBA 0, a miss that fills the single line. -/
def cacheRead1 : Except BlockError (List Nat) × CacheState :=
  cached_read_sector oneSectorDevice (CacheState.new 1) 0 512

/-- Second cache read: LBA 1, a miss whose fill fails. -/
def cacheRead2 : Except BlockError (List Nat) × CacheState :=
  cached_read_sector oneSectorDevice cacheRead1.2 1 512

/-- Third cache read: LBA 0 again, after the failed fill. -/
def cacheRead3 : Except BlockError (List Nat) × CacheState :=
  cached_read_sector oneSectorDevice cacheRead2.2 0 512

/-- A directory sector whose single entry slot has name byte `0xFF` (not
UTF-8) and `name_len = 1`. -/
def badNameBlock : List Nat :=
  copyBytes (copyBytes (List.replicate 512 0) 0 [0xFF]) 32 [1]

/-- A disk image with a valid superblock (one directory block, one entry
slot) whose only live directory entry has a non-UTF-8 name. -/
def badNameDevice : Device := fun lba =>
  if lba = 0 then Except.ok (Superblock.new 3 1 1).encode
  else if lba = 1 then Except.ok badNameBlock
  else Except.ok (List.replicate 512 0)

/-- A device whose sector `lba` is 512 copies of `lba % 256`. -/
def stripedDevice : Device := fun lba =>
  Except.ok (List.replicate 512 (lba % 256))

/-- The sector contents behind `stripedDevice`. -/
def stripedBlocks : Nat → List Nat := fun lba =>
  List.replicate 512 (lba % 256)

/-- A mounted filesystem view over `stripedDevice` with one 700-byte file
starting at block 5. -/
def stripedFs : SimpleFs :=
  ⟨stripedDevice, Superblock.new 10 1 1, [⟨104 :: List.replicate 31 0, 1, 5, 2, 700, 0⟩]⟩

/-- A trivial filesystem used to instantiate `resolve_path` facts. -/
def constFs : FileSystem where
  root := 0
  lookup := fun _ _ => Except.error VfsError.NotFound
  metadata := fun _ => Except.ok ⟨NodeType.Directory, 0⟩

/-! ## Theorems -/

/-- C10: for every node id `n ≥ 1` beyond the mounted entry list,
`SimpleFs::metadata` and `SimpleFs::read` both return `NotFound`; an
out-of-range node is never reported as a file and never yields data. -/
theorem simplefs_out_of_range_node_not_found (fs : SimpleFs) (node offset out_len : Nat)
    (h1 : 1 ≤ node) (h2 : fs.entries.length ≤ node - 1) :
    fs.metadata node = Except.error VfsError.NotFound ∧
    fs.read node offset out_len = Except.error VfsError.NotFound := by
  have hnz : node ≠ 0 := by omega
  have hget : fs.entries[node - 1]? = none := List.getElem?_eq_none h2
  constructor
  · simp [SimpleFs.metadata, hnz, node_entry_index, hget]
  · simp [SimpleFs.read, hnz, node_entry_index, hget]

/-- Witness for C10 at `stripedFs` (one live entry) and node 2. -/
theorem simplefs_out_of_range_node_not_found_witness :
    1 ≤ 2 ∧ stripedFs.metadata 2 = Except.error VfsError.NotFound ∧
      stripedFs.read 2 0 8 = Except.error VfsError.NotFound :=
  ⟨by decide,
    (simplefs_out_of_range_node_not_found stripedFs 2 0 8 (by decide) (by decide)).1,
    (simplefs_out_of_range_node_not_found stripedFs 2 0 8 (by decide) (by decide)).2⟩

/-- C9: for the single usable region `[0x200000, 0x200000 + 4097)`,
`count_usable_frames` rounds the region end up to a frame boundary and
reports 2 frames, while `alloc` succeeds exactly once; after the second
(failed) allocation `stats()` still reports `free_frames = 1 > 0`. -/
theorem count_usable_frames_overcounts_trailing_frame :
    count_usable_frames slackRegions MIN_ALLOCATABLE_ADDR = 2 ∧
    (alloc_frame (init_from_memory_map slackRegions)).1 =
      some ⟨MIN_ALLOCATABLE_ADDR⟩ ∧
    (alloc_frame (alloc_frame (init_from_memory_map slackRegions)).2).1 = none ∧
    (GlobalFrameState.stats
      (alloc_frame (alloc_frame (init_from_memory_map slackRegions)).2).2).free_frames = 1 := by
  refine ⟨by decide, by decide, by decide, by decide⟩

/-- C8: keyboard decoding — arrow-key sequence `E0 48 E0 50` yields exactly
`Up` then `Down`; the QWERTZ swap maps scancode `0x15` to `z` and `0x2C`
to `y`, capitalized while shift is held (make `0x2A`/`0x36`) and lowercase
again after the break (`0xAA`); any non-`E0` byte with the high bit set
pushes no event. -/
theorem keyboard_decoder_cases :
    ((try_read_key (feedAll KeyboardState.init [0xE0, 0x48, 0xE0, 0x50])).1 =
        some KeyEvent.Up ∧
      (try_read_key (try_read_key (feedAll KeyboardState.init [0xE0, 0x48, 0xE0, 0x50])).2).1 =
        some KeyEvent.Down ∧
      (try_read_key (try_read_key
        (try_read_key (feedAll KeyboardState.init [0xE0, 0x48, 0xE0, 0x50])).2).2).1 = none) ∧
    ((try_read_key (feedAll KeyboardState.init [0x15])).1 = some (KeyEvent.Char 122) ∧
      (try_read_key (feedAll KeyboardState.init [0x2C])).1 = some (KeyEvent.Char 121) ∧
      (try_read_key (feedAll KeyboardState.init [0x2A, 0x15])).1 = some (KeyEvent.Char 90) ∧
      (try_read_key (feedAll KeyboardState.init [0x36, 0x2C])).1 = some (KeyEvent.Char 89) ∧
      (try_read_key (feedAll KeyboardState.init [0x2A, 0xAA, 0x15])).1 =
        some (KeyEvent.Char 122)) ∧
    (∀ (s : KeyboardState) (sc : Nat), s.e0 = false → sc ≠ 0xE0 → sc &&& 0x80 ≠ 0 →
      (feed_scancode s sc).head = s.head ∧ (feed_scancode s sc).buffer = s.buffer ∧
        (feed_scancode s sc).tail = s.tail) := by
  refine ⟨⟨by decide, by decide, by decide⟩,
    ⟨by decide, by decide, by decide, by decide, by decide⟩, ?_⟩
  intro s sc he0 hne hbit
  have h2A : ¬(sc = 0x2A ∨ sc = 0x36) := by
    rintro (rfl | rfl) <;> exact hbit (by decide)
  by_cases hAB : sc = 0xAA ∨ sc = 0xB6
  · simp [feed_scancode, hne, he0, h2A, hAB]
  · simp [feed_scancode, hne, he0, h2A, hAB, hbit]

/-- Witness for C8's universally quantified part at the release byte
`0x90` fed to the initial state. -/
theorem keyboard_decoder_cases_witness :
    KeyboardState.init.e0 = false ∧ (0x90 : Nat) ≠ 0xE0 ∧ (0x90 : Nat) &&& 0x80 ≠ 0 ∧
      (feed_scancode KeyboardState.init 0x90).head = KeyboardState.init.head :=
  ⟨by decide, by decide, by decide,
    (keyboard_decoder_cases.2.2 KeyboardState.init 0x90 (by decide) (by decide) (by decide)).1⟩

/-- C4 counterexample: after a hit on LBA 0 fills the single cache line, a
failed miss on LBA 1 propagates `DeviceFault` but leaves the victim line
VALID and still tagged with LBA 0 (the code never clears `valid` on the
error path), and the next read of LBA 0 is served from the cache (the hit
counter increments, the inner device is not consulted). -/
theorem cache_failed_fill_counterexample :
    cacheRead2.1 = Except.error BlockError.DeviceFault ∧
    ¬(∀ l ∈ cacheRead2.2.lines, l.valid = false ∨ l.lba ≠ 0) ∧
    (cacheRead2.2.lines.getD 0 CacheLine.empty).valid = true ∧
    (cacheRead2.2.lines.getD 0 CacheLine.empty).lba = 0 ∧
    cacheRead3.1 = Except.ok (List.replicate 512 7) ∧
    cacheRead3.2.hits = 1 ∧ cacheRead3.2.misses = 2 := by
  refine ⟨by decide, by decide, by decide, by decide, by decide, by decide, by decide⟩

/-- C4 amended: on a cache miss whose inner read fails, the error is
propagated, the miss counter and tick advance, and the cache lines are
left exactly as they were — the victim keeps its previous `valid` flag and
`lba`, so a previously valid victim still answers for its old LBA. -/
theorem cache_miss_inner_error_propagates (inner : Device) (c : CacheState)
    (lba out_len : Nat) (e : BlockError)
    (hlen : out_len = 512)
    (hmiss : c.lines.findIdx? (fun l => l.valid && l.lba = lba) = none)
    (herr : inner lba = Except.error e) :
    cached_read_sector inner c lba out_len =
      (Except.error e,
        { c with ticks := (c.ticks + 1) % 2 ^ 64, misses := (c.misses + 1) % 2 ^ 64 }) := by
  subst hlen
  simp [cached_read_sector, hmiss, herr]

/-- Witness for C4's amended theorem: the failing second read of the
concrete scenario. -/
theorem cache_miss_inner_error_propagates_witness :
    cacheRead1.2.lines.findIdx? (fun l => l.valid && l.lba = 1) = none ∧
    oneSectorDevice 1 = Except.error BlockError.DeviceFault ∧
    cached_read_sector oneSectorDevice cacheRead1.2 1 512 =
      (Except.error BlockError.DeviceFault,
        { cacheRead1.2 with
          ticks := (cacheRead1.2.ticks + 1) % 2 ^ 64
          misses := (cacheRead1.2.misses + 1) % 2 ^ 64 }) :=
  ⟨by decide, by decide,
    cache_miss_inner_error_propagates oneSectorDevice cacheRead1.2 1 512
      BlockError.DeviceFault rfl (by decide) (by decide)⟩

/-- C3 counterexample: the image `badNameDevice` has a valid superblock and
one live directory entry whose name byte `0xFF` is not UTF-8, yet
`SimpleFs::mount` succeeds (keeping the entry) instead of returning
`Err(VfsError::Io)`. -/
theorem mount_accepts_non_utf8_name_counterexample :
    (SimpleFs.mount badNameDevice).map SimpleFs.entry_count = Except.ok 1 ∧
    SimpleFs.mount badNameDevice ≠ Except.error VfsError.Io := by
  have h : (SimpleFs.mount badNameDevice).map SimpleFs.entry_count = Except.ok 1 := by decide
  refine ⟨h, fun hcontra => ?_⟩
  rw [hcontra] at h
  exact Except.noConfusion h

/-- C3 amended: `SimpleFs::mount` performs no UTF-8 validation — it keeps
every entry with `name_len ≠ 0`, so the bad image mounts successfully with
the non-UTF-8 entry in its list; the UTF-8 check happens in
`SimpleFs::list`, which maps it to `Err(VfsError::Io)`. -/
theorem mount_defers_utf8_check_to_list :
    (SimpleFs.mount badNameDevice).map SimpleFs.entries =
      Except.ok [⟨255 :: List.replicate 31 0, 1, 0, 0, 0, 0⟩] ∧
    (SimpleFs.mount badNameDevice).bind (fun fs => fs.list 0) =
      Except.error VfsError.Io := by
  refine ⟨by decide, by decide⟩

/-- If some segment is `.` or `..`, the filtering loop rejects the path. -/
lemma splitPathGo_error_of_bad_seg (parts : List (List Char)) (seg : List Char)
    (hmem : seg ∈ parts) (hbad : seg = ['.'] ∨ seg = ['.', '.']) :
    splitPathGo parts = Except.error VfsError.InvalidPath := by
  induction parts with
  | nil => cases hmem
  | cons part rest ih =>
    rcases List.mem_cons.mp hmem with rfl | hmem2
    · have hne : seg ≠ [] := by rcases hbad with rfl | rfl <;> decide
      rw [splitPathGo, if_neg hne, if_pos hbad]
    · rw [splitPathGo]
      by_cases hemp : part = []
      · rw [if_pos hemp]
        exact ih hmem2
      · rw [if_neg hemp]
        by_cases hb : part = ['.'] ∨ part = ['.', '.']
        · rw [if_pos hb]
        · rw [if_neg hb, ih hmem2]
          rfl

/-- If no segment is `.` or `..`, the filtering loop keeps exactly the
non-empty segments, in order. -/
lemma splitPathGo_ok_of_good (parts : List (List Char))
    (hgood : ∀ seg ∈ parts, seg ≠ ['.'] ∧ seg ≠ ['.', '.']) :
    splitPathGo parts = Except.ok (parts.filter (fun seg => decide (seg ≠ []))) := by
  induction parts with
  | nil => rfl
  | cons part rest ih =>
    have hrest : ∀ seg ∈ rest, seg ≠ ['.'] ∧ seg ≠ ['.', '.'] := by
      intro seg hseg
      exact hgood seg (List.mem_cons_of_mem _ hseg)
    have hpart := hgood part (List.mem_cons_self _ _)
    rw [splitPathGo]
    by_cases hemp : part = []
    · rw [if_pos hemp, ih hrest]
      subst hemp
      simp
    · rw [if_neg hemp, if_neg (by tauto), ih hrest]
      simp [hemp, Except.map]

/-- C6: `split_path` rejects every path that does not begin with `/` and
every path containing a `.` or `..` segment; for accepted paths it returns
the non-empty segments in order (empty segments are skipped);
`resolve_path(fs, "/")` is `fs.root()` for every filesystem, and
`split_path("etc/hosts")` fails with `InvalidPath`. -/
theorem split_path_resolve_path_spec :
    (∀ p : List Char, p.head? ≠ some '/' →
      split_path p = Except.error VfsError.InvalidPath) ∧
    (∀ (p : List Char) (seg : List Char), seg ∈ splitSlash p →
      (seg = ['.'] ∨ seg = ['.', '.']) →
      split_path p = Except.error VfsError.InvalidPath) ∧
    (∀ p : List Char, p.head? = some '/' →
      (∀ seg ∈ splitSlash p, seg ≠ ['.'] ∧ seg ≠ ['.', '.']) →
      split_path p = Except.ok ((splitSlash p).filter (fun seg => decide (seg ≠ [])))) ∧
    (∀ fs : FileSystem, resolve_path fs "/".toList = Except.ok fs.root) ∧
    split_path "etc/hosts".toList = Except.error VfsError.InvalidPath := by
  refine ⟨?_, ?_, ?_, ?_, by decide⟩
  · intro p hp
    match p with
    | [] => rfl
    | c :: rest =>
      have hc : c ≠ '/' := by
        intro h
        exact hp (by rw [h]; rfl)
      rw [split_path, if_neg hc]
  · intro p seg hmem hbad
    match p with
    | [] =>
      have : seg = [] := by
        simpa [splitSlash] using hmem
      rcases hbad with rfl | rfl <;> cases this
    | c :: rest =>
      by_cases hc : c = '/'
      · rw [split_path, if_pos hc]
        exact splitPathGo_error_of_bad_seg _ seg hmem hbad
      · rw [split_path, if_neg hc]
  · intro p hp hgood
    match p with
    | [] => cases hp
    | c :: rest =>
      have hc : c = '/' := by
        injection hp
      rw [split_path, if_pos hc]
      exact splitPathGo_ok_of_good _ hgood
  · intro fs
    rfl

/-- Witness for C6 at the concrete paths `"etc"`, `"/a/./b"`,
`"/etc//hosts"` and the trivial filesystem. -/
theorem split_path_resolve_path_spec_witness :
    split_path "etc".toList = Except.error VfsError.InvalidPath ∧
    split_path "/a/./b".toList = Except.error VfsError.InvalidPath ∧
    split_path "/etc//hosts".toList =
      Except.ok ["etc".toList, "hosts".toList] ∧
    resolve_path constFs "/".toList = Except.ok constFs.root :=
  ⟨split_path_resolve_path_spec.1 "etc".toList (by decide),
    split_path_resolve_path_spec.2.1 "/a/./b".toList ['.'] (by decide) (by decide),
    by
      have h := split_path_resolve_path_spec.2.2.1 "/etc//hosts".toList (by decide) (by decide)
      rw [h]
      rfl,
    split_path_resolve_path_spec.2.2.2.1 constFs⟩

/-! ### Byte-splice lemmas for the codec -/

lemma length_u32le (v : Nat) : (u32le v).length = 4 := rfl

lemma length_copyBytes (out src : List Nat) (off : Nat) (h : off + src.length ≤ out.length) :
    (copyBytes out off src).length = out.length := by
  simp [copyBytes]
  omega

lemma length_write_u32 (out : List Nat) (off v : Nat) (h : off + 4 ≤ out.length) :
    (write_u32 out off v).length = out.length := by
  unfold write_u32
  rw [length_copyBytes]
  rw [length_u32le]
  omega

lemma getElem?_copyBytes_lt (out src : List Nat) (off i : Nat)
    (h : i < off) (hoff : off ≤ out.length) :
    (copyBytes out off src)[i]? = out[i]? := by
  unfold copyBytes
  rw [List.getElem?_append_left, List.getElem?_append_left, List.getElem?_take]
  · rw [if_pos h]
  · simp
    omega
  · simp
    omega

lemma getElem?_copyBytes_mid (out src : List Nat) (off i : Nat)
    (h1 : off ≤ i) (h2 : i < off + src.length) (hoff : off ≤ out.length) :
    (copyBytes out off src)[i]? = src[i - off]? := by
  unfold copyBytes
  have htl : (out.take off).length = off := by
    simp
    omega
  rw [List.getElem?_append_left (by simp [htl]; omega),
    List.getElem?_append_right (by rw [htl]; exact h1), htl]

lemma getElem?_copyBytes_ge (out src : List Nat) (off i : Nat)
    (h : off + src.length ≤ i) (hoff : off ≤ out.length) :
    (copyBytes out off src)[i]? = out[i]? := by
  unfold copyBytes
  have htl : (out.take off).length ≤ off := by simp
  rw [List.getElem?_append_right (by simp; omega), List.getElem?_drop]
  congr 1
  simp
  omega

lemma getD_copyBytes_lt (out src : List Nat) (off i : Nat)
    (h : i < off) (hoff : off ≤ out.length) :
    (copyBytes out off src).getD i 0 = out.getD i 0 := by
  rw [List.getD_eq_getElem?_getD, getElem?_copyBytes_lt out src off i h hoff,
    ← List.getD_eq_getElem?_getD]

lemma getD_copyBytes_mid (out src : List Nat) (off i : Nat)
    (h1 : off ≤ i) (h2 : i < off + src.length) (hoff : off ≤ out.length) :
    (copyBytes out off src).getD i 0 = src.getD (i - off) 0 := by
  rw [List.getD_eq_getElem?_getD, getElem?_copyBytes_mid out src off i h1 h2 hoff,
    ← List.getD_eq_getElem?_getD]

lemma getD_copyBytes_ge (out src : List Nat) (off i : Nat)
    (h : off + src.length ≤ i) (hoff : off ≤ out.length) :
    (copyBytes out off src).getD i 0 = out.getD i 0 := by
  rw [List.getD_eq_getElem?_getD, getElem?_copyBytes_ge out src off i h hoff,
    ← List.getD_eq_getElem?_getD]

lemma getElem?_write_u32_lt (out : List Nat) (off v i : Nat)
    (h : i < off) (hoff : off ≤ out.length) :
    (write_u32 out off v)[i]? = out[i]? :=
  getElem?_copyBytes_lt out (u32le v) off i h hoff

lemma getElem?_write_u32_ge (out : List Nat) (off v i : Nat)
    (h : off + 4 ≤ i) (hoff : off ≤ out.length) :
    (write_u32 out off v)[i]? = out[i]? :=
  getElem?_copyBytes_ge out (u32le v) off i (by rw [length_u32le]; omega) hoff

/-- Reading four bytes strictly below a write leaves them unchanged. -/
lemma read_u32_write_u32_lt (out : List Nat) (off v i : Nat)
    (h : i + 4 ≤ off) (hoff : off ≤ out.length) :
    read_u32 (write_u32 out off v) i = read_u32 out i := by
  unfold read_u32 write_u32
  rw [getD_copyBytes_lt out _ off i (by omega) hoff,
    getD_copyBytes_lt out _ off (i + 1) (by omega) hoff,
    getD_copyBytes_lt out _ off (i + 2) (by omega) hoff,
    getD_copyBytes_lt out _ off (i + 3) (by omega) hoff]

/-- Reading four bytes entirely above a write leaves them unchanged. -/
lemma read_u32_write_u32_ge (out : List Nat) (off v i : Nat)
    (h : off + 4 ≤ i) (hoff : off ≤ out.length) :
    read_u32 (write_u32 out off v) i = read_u32 out i := by
  unfold read_u32 write_u32
  rw [getD_copyBytes_ge out _ off i (by rw [length_u32le]; omega) hoff,
    getD_copyBytes_ge out _ off (i + 1) (by rw [length_u32le]; omega) hoff,
    getD_copyBytes_ge out _ off (i + 2) (by rw [length_u32le]; omega) hoff,
    getD_copyBytes_ge out _ off (i + 3) (by rw [length_u32le]; omega) hoff]

/-- Reading back the four bytes a write stored recovers the value. -/
lemma read_u32_write_u32_self (out : List Nat) (off v : Nat)
    (hoff : off + 4 ≤ out.length) (hv : v < 2 ^ 32) :
    read_u32 (write_u32 out off v) off = v := by
  unfold read_u32 write_u32
  rw [getD_copyBytes_mid out _ off off (by omega) (by rw [length_u32le]; omega) (by omega),
    getD_copyBytes_mid out _ off (off + 1) (by omega) (by rw [length_u32le]; omega) (by omega),
    getD_copyBytes_mid out _ off (off + 2) (by omega) (by rw [length_u32le]; omega) (by omega),
    getD_copyBytes_mid out _ off (off + 3) (by omega) (by rw [length_u32le]; omega) (by omega)]
  have e0 : off - off = 0 := by omega
  have e1 : off + 1 - off = 1 := by omega
  have e2 : off + 2 - off = 2 := by omega
  have e3 : off + 3 - off = 3 := by omega
  rw [e0, e1, e2, e3]
  show v % 256 + 256 * (v / 256 % 256) + 65536 * (v / 65536 % 256) +
    16777216 * (v / 16777216 % 256) = v
  omega


/-- The length of an encoded superblock whose magic is the 8-byte magic. -/
lemma length_sb_encode (sb : Superblock) (hm : sb.magic.length = 8) :
    sb.encode.length = 512 := by
  simp [Superblock.encode, write_u32, copyBytes, u32le, BLOCK_SIZE, hm]

/-- Superblock encode-then-decode round-trip, for any superblock whose
fixed fields are the `Superblock::new` constants and whose u32 fields are
in range. -/
lemma sb_decode_encode (sb : Superblock)
    (hmg : sb.magic = MAGIC) (hv : sb.version = 1) (hbsz : sb.block_size = 512)
    (ht : sb.total_blocks < 2 ^ 32) (hdc : sb.dir_entry_count < 2 ^ 32)
    (hds : sb.dir_start_block < 2 ^ 32) (hdbc : sb.dir_block_count < 2 ^ 32)
    (hdata0 : sb.data_start_block < 2 ^ 32) :
    Superblock.decode sb.encode = Except.ok sb := by
  have hm : sb.magic.length = 8 := by rw [hmg]; rfl
  have b0 : (copyBytes (List.replicate BLOCK_SIZE 0) 0 sb.magic).length = 512 := by
    rw [length_copyBytes]
    · rfl
    · rw [hm]
      decide
  have b1 : (write_u32 (copyBytes (List.replicate BLOCK_SIZE 0) 0 sb.magic) 8
      sb.version).length = 512 := by
    rw [length_write_u32] <;> omega
  have b2 : (write_u32 (write_u32 (copyBytes (List.replicate BLOCK_SIZE 0) 0 sb.magic) 8
      sb.version) 12 sb.block_size).length = 512 := by
    rw [length_write_u32] <;> omega
  have b3 : (write_u32 (write_u32 (write_u32 (copyBytes (List.replicate BLOCK_SIZE 0) 0
      sb.magic) 8 sb.version) 12 sb.block_size) 16 sb.total_blocks).length = 512 := by
    rw [length_write_u32] <;> omega
  have b4 : (write_u32 (write_u32 (write_u32 (write_u32 (copyBytes
      (List.replicate BLOCK_SIZE 0) 0 sb.magic) 8 sb.version) 12 sb.block_size) 16
      sb.total_blocks) 20 sb.dir_entry_count).length = 512 := by
    rw [length_write_u32] <;> omega
  have b5 : (write_u32 (write_u32 (write_u32 (write_u32 (write_u32 (copyBytes
      (List.replicate BLOCK_SIZE 0) 0 sb.magic) 8 sb.version) 12 sb.block_size) 16
      sb.total_blocks) 20 sb.dir_entry_count) 24 sb.dir_start_block).length = 512 := by
    rw [length_write_u32] <;> omega
  have b6 : (write_u32 (write_u32 (write_u32 (write_u32 (write_u32 (write_u32 (copyBytes
      (List.replicate BLOCK_SIZE 0) 0 sb.magic) 8 sb.version) 12 sb.block_size) 16
      sb.total_blocks) 20 sb.dir_entry_count) 24 sb.dir_start_block) 28
      sb.dir_block_count).length = 512 := by
    rw [length_write_u32] <;> omega
  have hver : read_u32 sb.encode 8 = sb.version := by
    unfold Superblock.encode
    rw [read_u32_write_u32_lt, read_u32_write_u32_lt, read_u32_write_u32_lt,
      read_u32_write_u32_lt, read_u32_write_u32_lt, read_u32_write_u32_lt,
      read_u32_write_u32_self] <;> omega
  have hbs : read_u32 sb.encode 12 = sb.block_size := by
    unfold Superblock.encode
    rw [read_u32_write_u32_lt, read_u32_write_u32_lt, read_u32_write_u32_lt,
      read_u32_write_u32_lt, read_u32_write_u32_lt, read_u32_write_u32_self] <;> omega
  have htb : read_u32 sb.encode 16 = sb.total_blocks := by
    unfold Superblock.encode
    rw [read_u32_write_u32_lt, read_u32_write_u32_lt, read_u32_write_u32_lt,
      read_u32_write_u32_lt, read_u32_write_u32_self] <;> omega
  have hdec : read_u32 sb.encode 20 = sb.dir_entry_count := by
    unfold Superblock.encode
    rw [read_u32_write_u32_lt, read_u32_write_u32_lt, read_u32_write_u32_lt,
      read_u32_write_u32_self] <;> omega
  have hdsb : read_u32 sb.encode 24 = sb.dir_start_block := by
    unfold Superblock.encode
    rw [read_u32_write_u32_lt, read_u32_write_u32_lt, read_u32_write_u32_self] <;> omega
  have hdbc2 : read_u32 sb.encode 28 = sb.dir_block_count := by
    unfold Superblock.encode
    rw [read_u32_write_u32_lt, read_u32_write_u32_self] <;> omega
  have hdata : read_u32 sb.encode 32 = sb.data_start_block := by
    unfold Superblock.encode
    rw [read_u32_write_u32_self] <;> omega
  have hmagic : sb.encode.take 8 = sb.magic := by
    have hlen : sb.encode.length = 512 := length_sb_encode sb hm
    apply List.ext_getElem
    · rw [List.length_take, hlen, hm]
      decide
    · intro n h1 h2
      have hn : n < 8 := by omega
      rw [List.getElem_take]
      have hgoal : sb.encode[n]? = sb.magic[n]? := by
        unfold Superblock.encode
        rw [getElem?_write_u32_lt, getElem?_write_u32_lt, getElem?_write_u32_lt,
          getElem?_write_u32_lt, getElem?_write_u32_lt, getElem?_write_u32_lt,
          getElem?_write_u32_lt, getElem?_copyBytes_mid] <;>
          first
            | omega
            | simp [BLOCK_SIZE]
      rw [List.getElem?_eq_getElem (by omega), List.getElem?_eq_getElem (by omega)] at hgoal
      exact Option.some_injective _ hgoal
  unfold Superblock.decode
  rw [hmagic, hver, hbs, htb, hdec, hdsb, hdbc2, hdata]
  have hval : sb.validate = Except.ok () := by
    simp [Superblock.validate, hmg, hv, hbsz, BLOCK_SIZE]
  simp only [hval]

lemma getD_write_u32_lt (out : List Nat) (off v i : Nat)
    (h : i < off) (hoff : off ≤ out.length) :
    (write_u32 out off v).getD i 0 = out.getD i 0 :=
  getD_copyBytes_lt out (u32le v) off i h hoff

/-- DirEntry encode-then-decode round-trip, for any entry whose stored
name is exactly 32 bytes and whose u32 fields are in range. -/
lemma de_decode_encode (e : DirEntry)
    (hname : e.name.length = 32)
    (hsb : e.file_start_block < 2 ^ 32) (hbc : e.file_block_count < 2 ^ 32)
    (hsz : e.file_size < 2 ^ 32) (hfl : e.flags < 2 ^ 32) :
    DirEntry.decode e.encode = e := by
  have d0 : (copyBytes (List.replicate DIR_ENTRY_SIZE 0) 0 e.name).length = 64 := by
    rw [length_copyBytes]
    · rfl
    · rw [hname]
      decide
  have d1 : (copyBytes (copyBytes (List.replicate DIR_ENTRY_SIZE 0) 0 e.name) 32
      [e.name_len]).length = 64 := by
    rw [length_copyBytes]
    · omega
    · simp
      omega
  have d2 : (write_u32 (copyBytes (copyBytes (List.replicate DIR_ENTRY_SIZE 0) 0 e.name) 32
      [e.name_len]) 36 e.file_start_block).length = 64 := by
    rw [length_write_u32] <;> omega
  have d3 : (write_u32 (write_u32 (copyBytes (copyBytes (List.replicate DIR_ENTRY_SIZE 0) 0
      e.name) 32 [e.name_len]) 36 e.file_start_block) 40 e.file_block_count).length = 64 := by
    rw [length_write_u32] <;> omega
  have d4 : (write_u32 (write_u32 (write_u32 (copyBytes (copyBytes
      (List.replicate DIR_ENTRY_SIZE 0) 0 e.name) 32 [e.name_len]) 36 e.file_start_block) 40
      e.file_block_count) 44 e.file_size).length = 64 := by
    rw [length_write_u32] <;> omega
  have hlen64 : e.encode.length = 64 := by
    unfold DirEntry.encode
    rw [length_write_u32] <;> omega
  have hnm : e.encode.take DIR_ENTRY_NAME_LEN = e.name := by
    apply List.ext_getElem
    · rw [List.length_take, hlen64, hname]
      decide
    · intro n h1 h2
      have hn : n < 32 := by omega
      rw [List.getElem_take]
      have hgoal : e.encode[n]? = e.name[n]? := by
        unfold DirEntry.encode
        rw [getElem?_write_u32_lt, getElem?_write_u32_lt, getElem?_write_u32_lt,
          getElem?_write_u32_lt, getElem?_copyBytes_lt, getElem?_copyBytes_mid] <;>
          first
            | omega
            | simp [DIR_ENTRY_SIZE]
      rw [List.getElem?_eq_getElem (by omega), List.getElem?_eq_getElem (by omega)] at hgoal
      exact Option.some_injective _ hgoal
  have hnl : e.encode.getD 32 0 = e.name_len := by
    unfold DirEntry.encode
    rw [getD_write_u32_lt, getD_write_u32_lt, getD_write_u32_lt, getD_write_u32_lt,
      getD_copyBytes_mid] <;>
      first
        | omega
        | simp
  have h36 : read_u32 e.encode 36 = e.file_start_block := by
    unfold DirEntry.encode
    rw [read_u32_write_u32_lt, read_u32_write_u32_lt, read_u32_write_u32_lt,
      read_u32_write_u32_self] <;> omega
  have h40 : read_u32 e.encode 40 = e.file_block_count := by
    unfold DirEntry.encode
    rw [read_u32_write_u32_lt, read_u32_write_u32_lt, read_u32_write_u32_self] <;> omega
  have h44 : read_u32 e.encode 44 = e.file_size := by
    unfold DirEntry.encode
    rw [read_u32_write_u32_lt, read_u32_write_u32_self] <;> omega
  have h48 : read_u32 e.encode 48 = e.flags := by
    unfold DirEntry.encode
    rw [read_u32_write_u32_self] <;> omega
  unfold DirEntry.decode
  rw [hnm, hnl, h36, h40, h44, h48]

/-- C7: encode-then-decode round-trips — every `Superblock::new` result
decodes back from its encoding (in particular `Superblock::new(100, 3, 1)`
with `total_blocks = 100`, `dir_entry_count = 3`, `dir_start_block = 1`,
`data_start_block = 2`), and every `DirEntry::new` result decodes back
from its encoding. -/
theorem codec_encode_decode_roundtrip :
    (∀ t dc dbc : Nat, t < 2 ^ 32 → dc < 2 ^ 32 → dbc < 2 ^ 32 →
      Superblock.decode (Superblock.new t dc dbc).encode =
        Except.ok (Superblock.new t dc dbc)) ∧
    (Superblock.decode (Superblock.new 100 3 1).encode =
        Except.ok (Superblock.new 100 3 1) ∧
      (Superblock.new 100 3 1).total_blocks = 100 ∧
      (Superblock.new 100 3 1).dir_entry_count = 3 ∧
      (Superblock.new 100 3 1).dir_start_block = 1 ∧
      (Superblock.new 100 3 1).data_start_block = 2) ∧
    (∀ (name : List Nat) (fsb fbc fsize : Nat) (e : DirEntry),
      fsb < 2 ^ 32 → fbc < 2 ^ 32 → fsize < 2 ^ 32 →
      DirEntry.new name fsb fbc fsize = Except.ok e →
      DirEntry.decode e.encode = e) := by
  have hsb : ∀ t dc dbc : Nat, t < 2 ^ 32 → dc < 2 ^ 32 → dbc < 2 ^ 32 →
      Superblock.decode (Superblock.new t dc dbc).encode =
        Except.ok (Superblock.new t dc dbc) := by
    intro t dc dbc ht hdc hdbc
    refine sb_decode_encode _ rfl rfl rfl ht hdc ?_ hdbc ?_
    · show (1 : Nat) < 2 ^ 32
      norm_num
    · show (1 + dbc) % 2 ^ 32 < 2 ^ 32
      exact Nat.mod_lt _ (by norm_num)
  refine ⟨hsb, ⟨hsb 100 3 1 (by norm_num) (by norm_num) (by norm_num), rfl, rfl, rfl, rfl⟩, ?_⟩
  intro name fsb fbc fsize e h1 h2 h3 hnew
  unfold DirEntry.new at hnew
  by_cases hcond : name = [] ∨ name.length > DIR_ENTRY_NAME_LEN
  · rw [if_pos hcond] at hnew
    cases hnew
  · rw [if_neg hcond] at hnew
    injection hnew with he
    subst he
    apply de_decode_encode
    · rw [not_or] at hcond
      have h32 : name.length ≤ DIR_ENTRY_NAME_LEN := Nat.le_of_not_lt hcond.2
      simp only [DIR_ENTRY_NAME_LEN] at h32
      simp [DIR_ENTRY_NAME_LEN]
      omega
    · exact h1
    · exact h2
    · exact h3
    · show (0 : Nat) < 2 ^ 32
      norm_num

/-- Witness for C7 at `Superblock::new(100, 3, 1)` and
`DirEntry::new("hi", 3, 2, 700)`. -/
theorem codec_encode_decode_roundtrip_witness :
    Superblock.decode (Superblock.new 100 3 1).encode =
      Except.ok (Superblock.new 100 3 1) ∧
    DirEntry.decode
        (DirEntry.encode ⟨104 :: 105 :: List.replicate 30 0, 2, 3, 2, 700, 0⟩) =
      ⟨104 :: 105 :: List.replicate 30 0, 2, 3, 2, 700, 0⟩ :=
  ⟨codec_encode_decode_roundtrip.1 100 3 1 (by norm_num) (by norm_num) (by norm_num),
    codec_encode_decode_roundtrip.2.2 [104, 105] 3 2 700
      ⟨104 :: 105 :: List.replicate 30 0, 2, 3, 2, 700, 0⟩
      (by norm_num) (by norm_num) (by norm_num) (by decide)⟩

/-- A `take` of a `drop` described pointwise via `getD`. -/
lemma drop_take_eq_map_range (l : List Nat) (o t : Nat) (h : o + t ≤ l.length) :
    (l.drop o).take t = (List.range t).map (fun j => l.getD (o + j) 0) := by
  apply List.ext_getElem
  · simp
    omega
  · intro n h1 h2
    have hn : n < t := by
      simp at h1
      omega
    have hl : (l.drop o)[n]? = l[o + n]? := List.getElem?_drop l o n
    rw [List.getElem?_eq_getElem (by simp; omega), List.getElem?_eq_getElem (by omega)] at hl
    rw [List.getElem_take, List.getElem_map, List.getElem_range,
      Option.some_injective _ hl, List.getD_eq_getElem l 0 (by omega)]

/-- The read loop of `SimpleFs::read`, under a device whose reads all
succeed with full sectors: it fills `out` up to `max_bytes` with the file
bytes starting at the cursor. -/
lemma readLoop_ok (blocks : Nat → List Nat) (device : Device)
    (hdev : ∀ lba, device lba = Except.ok (blocks lba))
    (hblen : ∀ lba, (blocks lba).length = 512)
    (sb offset0 max_bytes : Nat) :
    ∀ (fuel read_total : Nat) (acc : List Nat),
      read_total ≤ max_bytes →
      max_bytes - read_total ≤ fuel →
      readLoop device sb max_bytes (offset0 + read_total) read_total acc fuel =
        Except.ok (max_bytes,
          acc ++ (List.range (max_bytes - read_total)).map
            (fun j => fileByte blocks sb (offset0 + read_total + j))) := by
  intro fuel
  induction fuel with
  | zero =>
    intro read_total acc hrt hfuel
    have heq : read_total = max_bytes := by omega
    unfold readLoop
    rw [if_neg (by omega)]
    subst heq
    simp
  | succ fuel ih =>
    intro read_total acc hrt hfuel
    by_cases hlt : read_total < max_bytes
    · unfold readLoop
      rw [if_pos hlt]
      show (match device (sb + (offset0 + read_total) / BLOCK_SIZE) with
        | Except.error e => Except.error (map_block_error e)
        | Except.ok scratch =>
          readLoop device sb max_bytes
            ((offset0 + read_total) +
              min (max_bytes - read_total) (BLOCK_SIZE - (offset0 + read_total) % BLOCK_SIZE))
            (read_total +
              min (max_bytes - read_total) (BLOCK_SIZE - (offset0 + read_total) % BLOCK_SIZE))
            (acc ++ (scratch.drop ((offset0 + read_total) % BLOCK_SIZE)).take
              (min (max_bytes - read_total) (BLOCK_SIZE - (offset0 + read_total) % BLOCK_SIZE)))
            fuel) = _
      simp only [hdev]
      set cursor := offset0 + read_total with hcursor
      set bo := cursor % BLOCK_SIZE with hbo
      set tc := min (max_bytes - read_total) (BLOCK_SIZE - bo) with htc
      have hbo512 : bo < 512 := by
        rw [hbo]
        exact Nat.mod_lt _ (by norm_num [BLOCK_SIZE])
      have htc1 : 1 ≤ tc := by
        rw [htc]
        simp [BLOCK_SIZE]
        omega
      have htcle : tc ≤ max_bytes - read_total := by
        rw [htc]
        omega
      have htcbo : bo + tc ≤ 512 := by
        rw [htc]
        simp [BLOCK_SIZE]
        omega
      have hcur : cursor + tc = offset0 + (read_total + tc) := by omega
      rw [hcur]
      rw [ih (read_total + tc) _ (by omega) (by omega)]
      congr 1
      congr 1
      -- the byte lists agree
      show acc ++ ((blocks (sb + cursor / BLOCK_SIZE)).drop bo).take tc ++
          (List.range (max_bytes - (read_total + tc))).map
            (fun j => fileByte blocks sb (offset0 + (read_total + tc) + j)) =
        acc ++ (List.range (max_bytes - read_total)).map
          (fun j => fileByte blocks sb (offset0 + read_total + j))
      rw [List.append_assoc]
      congr 1
      have hchunk : ((blocks (sb + cursor / BLOCK_SIZE)).drop bo).take tc =
          (List.range tc).map (fun j => fileByte blocks sb (cursor + j)) := by
        rw [drop_take_eq_map_range _ _ _ (by rw [hblen]; omega)]
        apply List.map_congr_left
        intro j hj
        have hjtc : j < tc := List.mem_range.mp hj
        unfold fileByte
        have hb := hbo
        have hdiv : (cursor + j) / BLOCK_SIZE = cursor / BLOCK_SIZE := by
          simp only [BLOCK_SIZE] at hb ⊢
          omega
        have hmod : (cursor + j) % BLOCK_SIZE = bo + j := by
          simp only [BLOCK_SIZE] at hb ⊢
          omega
        rw [hdiv, hmod]
      rw [hchunk]
      have hsplit : max_bytes - read_total = tc + (max_bytes - (read_total + tc)) := by
        omega
      rw [hsplit, List.range_add, List.map_append, List.map_map]
      congr 1
      apply List.map_congr_left
      intro j _
      show fileByte blocks sb (offset0 + (read_total + tc) + j) =
        fileByte blocks sb (offset0 + read_total + (tc + j))
      congr 1
      omega
    · have heq : read_total = max_bytes := by omega
      unfold readLoop
      rw [if_neg (by omega)]
      subst heq
      simp

/-- C2: `SimpleFs::read` returns `NotFile` on the root node, `NotFound` on
a node with no live entry, `Ok(0)` when the offset is at or past the file
size, and otherwise (all device reads succeeding) reads exactly
`min(out.len, file_size - offset)` bytes, equal to the file bytes laid out
in 512-byte blocks from `file_start_block` with `block_index = offset/512`. -/
theorem simplefs_read_spec (fs : SimpleFs) (blocks : Nat → List Nat)
    (hdev : ∀ lba, fs.device lba = Except.ok (blocks lba))
    (hblen : ∀ lba, (blocks lba).length = 512) :
    (∀ offset out_len, fs.read 0 offset out_len = Except.error VfsError.NotFile) ∧
    (∀ node offset out_len, 1 ≤ node → fs.entries[node - 1]? = none →
      fs.read node offset out_len = Except.error VfsError.NotFound) ∧
    (∀ node offset out_len entry, 1 ≤ node → fs.entries[node - 1]? = some entry →
      (entry.file_size ≤ offset → fs.read node offset out_len = Except.ok (0, [])) ∧
      (offset < entry.file_size →
        fs.read node offset out_len =
          Except.ok (min out_len (entry.file_size - offset),
            (List.range (min out_len (entry.file_size - offset))).map
              (fun j => fileByte blocks entry.file_start_block (offset + j))))) := by
  refine ⟨?_, ?_, ?_⟩
  · intro offset out_len
    rfl
  · intro node offset out_len h1 hnone
    have hnz : node ≠ 0 := by omega
    simp [SimpleFs.read, hnz, node_entry_index, hnone]
  · intro node offset out_len entry h1 hsome
    have hnz : node ≠ 0 := by omega
    constructor
    · intro hoff
      simp [SimpleFs.read, hnz, node_entry_index, hsome, hoff]
    · intro hoff
      have hloop := readLoop_ok blocks fs.device hdev hblen entry.file_start_block offset
        (min out_len (entry.file_size - offset))
        (min out_len (entry.file_size - offset)) 0 [] (by omega) (by omega)
      simp only [Nat.add_zero, Nat.sub_zero, List.nil_append] at hloop
      simp [SimpleFs.read, hnz, node_entry_index, hsome, Nat.not_le.mpr hoff, hloop]

/-- Witness for C2 over `stripedFs`: a read straddling a block boundary
(offset 510, 8 bytes of a 700-byte file starting at block 5). -/
theorem simplefs_read_spec_witness :
    stripedFs.read 0 0 8 = Except.error VfsError.NotFile ∧
    stripedFs.read 1 700 8 = Except.ok (0, []) ∧
    stripedFs.read 1 510 8 =
      Except.ok (min 8 (700 - 510),
        (List.range (min 8 (700 - 510))).map
          (fun j => fileByte stripedBlocks 5 (510 + j))) := by
  have hspec := simplefs_read_spec stripedFs stripedBlocks (fun lba => rfl)
    (fun lba => by simp [stripedBlocks])
  refine ⟨hspec.1 0 8, ?_, ?_⟩
  · exact (hspec.2.2 1 700 8 ⟨104 :: List.replicate 31 0, 1, 5, 2, 700, 0⟩
      (by decide) (by decide)).1 (by decide)
  · exact (hspec.2.2 1 510 8 ⟨104 :: List.replicate 31 0, 1, 5, 2, 700, 0⟩
      (by decide) (by decide)).2 (by decide)

/-! ### Frame-allocator lemmas -/

/-- Masking with `!4095` (as a 64-bit word) clears the low 12 bits. -/
lemma land_high_mask (x : Nat) (hx : x < 2 ^ 64) :
    x &&& (2 ^ 64 - 1 - 4095) = x / 4096 * 4096 := by
  have hmask : (2 ^ 64 - 1 - 4095 : Nat) = 2 ^ 12 * (2 ^ 52 - 1) := by norm_num
  have hdivlt : x / 4096 < 2 ^ 52 := by omega
  apply Nat.eq_of_testBit_eq
  intro i
  rw [Nat.testBit_land, hmask, Nat.testBit_mul_pow_two, Nat.testBit_two_pow_sub_one]
  have hxdiv : x / 4096 * 4096 = 2 ^ 12 * (x / 4096) := by
    rw [Nat.mul_comm]
    norm_num
  rw [hxdiv, Nat.testBit_mul_pow_two]
  by_cases h12 : 12 ≤ i
  · by_cases h64 : i < 64
    · have hi52 : i - 12 < 52 := by omega
      have hdj : (x / 4096).testBit (i - 12) = x.testBit i := by
        have hsh : x / 4096 = x >>> 12 := by
          rw [Nat.shiftRight_eq_div_pow]
        rw [hsh, Nat.testBit_shiftRight]
        congr 1
        omega
      simp [h12, hi52, hdj]
    · have hxf : x.testBit i = false := Nat.testBit_eq_false_of_lt (by
        calc x < 2 ^ 64 := hx
        _ ≤ 2 ^ i := Nat.pow_le_pow_right (by norm_num) (by omega))
      have hdf : (x / 4096).testBit (i - 12) = false := Nat.testBit_eq_false_of_lt (by
        calc x / 4096 < 2 ^ 52 := hdivlt
        _ ≤ 2 ^ (i - 12) := Nat.pow_le_pow_right (by norm_num) (by omega))
      simp [h12, hxf, hdf]
  · simp [h12]

/-- `align_up` with a 4096 alignment, in the wrap-free range, is rounding
up to the next multiple of 4096. -/
lemma align_up_eq (v : Nat) (hv : v + 4095 < 2 ^ 64) :
    align_up v 4096 = (v + 4095) / 4096 * 4096 := by
  show ((v + 4095) % 2 ^ 64) &&& (2 ^ 64 - 1 - 4095) = (v + 4095) / 4096 * 4096
  rw [Nat.mod_eq_of_lt hv]
  exact land_high_mask (v + 4095) hv

lemma align_up_ge (v : Nat) (hv : v + 4095 < 2 ^ 64) : v ≤ align_up v 4096 := by
  rw [align_up_eq v hv]
  have := Nat.div_add_mod (v + 4095) 4096
  omega

lemma align_up_le (v : Nat) (hv : v + 4095 < 2 ^ 64) : align_up v 4096 ≤ v + 4095 := by
  rw [align_up_eq v hv]
  have := Nat.div_add_mod (v + 4095) 4096
  omega

lemma align_up_mod (v : Nat) (hv : v + 4095 < 2 ^ 64) : align_up v 4096 % 4096 = 0 := by
  rw [align_up_eq v hv]
  exact Nat.mul_mod_left _ _

/-- Memory maps whose usable regions stay at least two frames below the
top of the address space (no wrap can occur). -/
def RegionsBounded (R : List MemoryMapEntry) : Prop :=
  ∀ r ∈ R, r.entry_type = 1 → r.base + r.length ≤ 2 ^ 64 - 8192

/-- The cursor invariant of the frame allocator: the cursor range lies
inside some usable region at or above `min_addr`, and the region end never
reaches the top of the address space. -/
def AllocInv (M : Nat) (R : List MemoryMapEntry) (a : FrameAllocator) : Prop :=
  a.regions = R ∧ a.min_addr = M ∧ a.region_end ≤ 2 ^ 64 - 8192 ∧
    (a.next_addr < a.region_end →
      M ≤ a.next_addr ∧
        ∃ r ∈ R, r.entry_type = 1 ∧ r.base ≤ a.next_addr ∧
          a.region_end ≤ r.base + r.length)

lemma allocInv_exhausted (M : Nat) (R : List MemoryMapEntry) (a : FrameAllocator)
    (hreg : a.regions = R) (hmin : a.min_addr = M) :
    AllocInv M R { a with next_addr := 0, region_end := 0 } := by
  refine ⟨hreg, hmin, ?_, ?_⟩
  · show (0 : Nat) ≤ 2 ^ 64 - 8192
    exact Nat.zero_le _
  · show (0 : Nat) < 0 → _
    intro h
    exact absurd h (by decide)

lemma selectGo_inv (M : Nat) (R : List MemoryMapEntry) (hR : RegionsBounded R) :
    ∀ (fuel : Nat) (a : FrameAllocator), a.regions = R → a.min_addr = M →
      AllocInv M R (selectGo a fuel) := by
  intro fuel
  induction fuel with
  | zero =>
    intro a hreg hmin
    exact allocInv_exhausted M R a hreg hmin
  | succ fuel ih =>
    intro a hreg hmin
    cases hget : a.regions.get? a.region_index with
    | none =>
      show AllocInv M R (selectGo a (fuel + 1))
      unfold selectGo
      rw [hget]
      exact allocInv_exhausted M R a hreg hmin
    | some region =>
      have hbody : selectGo a (fuel + 1) =
          (if region.entry_type ≠ 1 ∨ region.length = 0 then
            selectGo { a with region_index := a.region_index + 1 } fuel
          else if max region.base a.min_addr ≥
              min (region.base + region.length) (2 ^ 64 - 1) then
            selectGo { a with region_index := a.region_index + 1 } fuel
          else FrameAllocator.mk a.regions (a.region_index + 1)
            (max region.base a.min_addr)
            (min (region.base + region.length) (2 ^ 64 - 1)) a.min_addr) := by
        conv_lhs => unfold selectGo; rw [hget]
      rw [hbody]
      by_cases hskip : region.entry_type ≠ 1 ∨ region.length = 0
      · rw [if_pos hskip]
        exact ih _ hreg hmin
      · rw [if_neg hskip]
        push_neg at hskip
        obtain ⟨htype, hlen⟩ := hskip
        have hmem : region ∈ R := by
          rw [← hreg]
          exact List.get?_mem hget
        have hbound : region.base + region.length ≤ 2 ^ 64 - 8192 := hR region hmem htype
        by_cases hempty : max region.base a.min_addr ≥
            min (region.base + region.length) (2 ^ 64 - 1)
        · rw [if_pos hempty]
          exact ih _ hreg hmin
        · rw [if_neg hempty]
          push_neg at hempty
          have hstop : min (region.base + region.length) (2 ^ 64 - 1) =
              region.base + region.length := by omega
          refine ⟨hreg, hmin, ?_, ?_⟩
          · show min (region.base + region.length) (2 ^ 64 - 1) ≤ 2 ^ 64 - 8192
            omega
          · show max region.base a.min_addr <
                min (region.base + region.length) (2 ^ 64 - 1) → _
            intro _
            refine ⟨?_, region, hmem, htype, ?_, ?_⟩
            · show M ≤ max region.base a.min_addr
              rw [← hmin]
              omega
            · show region.base ≤ max region.base a.min_addr
              omega
            · show min (region.base + region.length) (2 ^ 64 - 1) ≤
                region.base + region.length
              omega

lemma select_next_region_inv (M : Nat) (R : List MemoryMapEntry) (hR : RegionsBounded R)
    (a : FrameAllocator) (hreg : a.regions = R) (hmin : a.min_addr = M) :
    AllocInv M R (select_next_region a) :=
  selectGo_inv M R hR _ a hreg hmin

/-- Every frame that `allocGo` returns from an invariant-satisfying state
is aligned, above `min_addr`, and contained in a usable region; the
invariant is preserved. -/
lemma allocGo_inv (M : Nat) (R : List MemoryMapEntry) (hR : RegionsBounded R) :
    ∀ (fuel : Nat) (a : FrameAllocator), AllocInv M R a →
      AllocInv M R (allocGo a fuel).2 ∧
        (∀ f, (allocGo a fuel).1 = some f →
          M ≤ f.start ∧ f.start % 4096 = 0 ∧
            ∃ r ∈ R, r.entry_type = 1 ∧ r.base ≤ f.start ∧
              f.start + 4096 ≤ r.base + r.length) := by
  intro fuel
  induction fuel with
  | zero =>
    intro a hinv
    exact ⟨hinv, by intro f hf; cases hf⟩
  | succ fuel ih =>
    intro a hinv
    set b := if a.next_addr ≥ a.region_end then select_next_region a else a with hb
    have hinvA : AllocInv M R b := by
      rw [hb]
      by_cases hsel : a.next_addr ≥ a.region_end
      · rw [if_pos hsel]
        exact select_next_region_inv M R hR a hinv.1 hinv.2.1
      · rw [if_neg hsel]
        exact hinv
    have hbody : allocGo a (fuel + 1) =
        (if b.next_addr ≥ b.region_end then (none, b)
        else if (align_up b.next_addr FRAME_SIZE + FRAME_SIZE) % 2 ^ 64 > b.region_end then
          allocGo { b with next_addr := b.region_end } fuel
        else (some ⟨align_up b.next_addr FRAME_SIZE⟩,
          { b with next_addr := (align_up b.next_addr FRAME_SIZE + FRAME_SIZE) % 2 ^ 64 })) := by
      rw [hb]
      rfl
    rw [hbody]
    by_cases hfin : b.next_addr ≥ b.region_end
    · rw [if_pos hfin]
      exact ⟨hinvA, by intro f hf; cases hf⟩
    · rw [if_neg hfin]
      push_neg at hfin
      obtain ⟨hregB, hminB, hendB, hcur⟩ := hinvA
      obtain ⟨hM, r, hmem, htype, hbase, hrlen⟩ := hcur hfin
      have hnwrap : b.next_addr + 4095 < 2 ^ 64 := by omega
      have hfs_ge : b.next_addr ≤ align_up b.next_addr FRAME_SIZE := by
        have := align_up_ge b.next_addr hnwrap
        simpa [FRAME_SIZE] using this
      have hfs_le : align_up b.next_addr FRAME_SIZE ≤ b.next_addr + 4095 := by
        have := align_up_le b.next_addr hnwrap
        simpa [FRAME_SIZE] using this
      have hfs_mod : align_up b.next_addr FRAME_SIZE % 4096 = 0 := by
        have := align_up_mod b.next_addr hnwrap
        simpa [FRAME_SIZE] using this
      set fs := align_up b.next_addr FRAME_SIZE with hfs
      have hfs_small : fs + FRAME_SIZE < 2 ^ 64 := by
        simp only [FRAME_SIZE]
        omega
      have hmod : (fs + FRAME_SIZE) % 2 ^ 64 = fs + FRAME_SIZE :=
        Nat.mod_eq_of_lt hfs_small
      rw [hmod]
      have hFS : FRAME_SIZE = 4096 := rfl
      by_cases habandon : fs + FRAME_SIZE > b.region_end
      · rw [if_pos habandon]
        apply ih
        refine ⟨hregB, hminB, ?_, ?_⟩
        · show b.region_end ≤ 2 ^ 64 - 8192
          omega
        · show b.region_end < b.region_end → _
          intro h
          exact absurd h (by omega)
      · rw [if_neg habandon]
        push_neg at habandon
        rw [hFS] at habandon
        constructor
        · show AllocInv M R { b with next_addr := fs + FRAME_SIZE }
          refine ⟨hregB, hminB, ?_, ?_⟩
          · show b.region_end ≤ 2 ^ 64 - 8192
            omega
          · show fs + FRAME_SIZE < b.region_end → _
            intro hlt
            rw [hFS] at hlt
            refine ⟨?_, r, hmem, htype, ?_, ?_⟩
            · show M ≤ fs + FRAME_SIZE
              rw [hFS]
              omega
            · show r.base ≤ fs + FRAME_SIZE
              rw [hFS]
              omega
            · show b.region_end ≤ r.base + r.length
              omega
        · intro f hf
          have hf2 : some (PhysicalFrame.mk fs) = some f := hf
          injection hf2 with hf2
          subst hf2
          refine ⟨?_, ?_, r, hmem, htype, ?_, ?_⟩
          · show M ≤ fs
            omega
          · show fs % 4096 = 0
            exact hfs_mod
          · show r.base ≤ fs
            omega
          · show fs + 4096 ≤ r.base + r.length
            omega

/-- C1 counterexample: with a usable region touching the top of the 64-bit
address space, the wrapping arithmetic in `align_up` makes `alloc` return
the frame at address 0, which is below `MIN_ALLOCATABLE_ADDR` and inside
no usable region. -/
theorem frame_alloc_invariant_counterexample :
    (FrameAllocator.new wrapRegions MIN_ALLOCATABLE_ADDR).alloc.1 = some ⟨0⟩ ∧
    ¬(MIN_ALLOCATABLE_ADDR ≤ 0) ∧
    ¬(∃ r ∈ wrapRegions, r.entry_type = 1 ∧ r.base ≤ 0 ∧ 0 + 4096 ≤ r.base + r.length) := by
  refine ⟨by decide, by decide, by decide⟩

/-- C1 amended: provided every usable region ends at least two frames
below `2^64` (so the u64 arithmetic cannot wrap), every frame returned by
the allocator — built over `MIN_ALLOCATABLE_ADDR`, after any number of
preceding `alloc` calls — is at or above `MIN_ALLOCATABLE_ADDR`,
4096-aligned, and contained in a usable (type 1) memory-map region. -/
theorem frame_alloc_invariant (R : List MemoryMapEntry)
    (hR : ∀ r ∈ R, r.entry_type = 1 → r.base + r.length ≤ 2 ^ 64 - 8192)
    (n : Nat) (f : PhysicalFrame)
    (hf : (FrameAllocator.alloc (allocN (FrameAllocator.new R MIN_ALLOCATABLE_ADDR) n)).1 =
      some f) :
    MIN_ALLOCATABLE_ADDR ≤ f.start ∧ f.start % 4096 = 0 ∧
      ∃ r ∈ R, r.entry_type = 1 ∧ r.base ≤ f.start ∧
        f.start + 4096 ≤ r.base + r.length := by
  have hRb : RegionsBounded R := hR
  have hinv0 : AllocInv MIN_ALLOCATABLE_ADDR R (FrameAllocator.new R MIN_ALLOCATABLE_ADDR) :=
    select_next_region_inv _ R hRb _ rfl rfl
  have hstep : ∀ m, AllocInv MIN_ALLOCATABLE_ADDR R
      (allocN (FrameAllocator.new R MIN_ALLOCATABLE_ADDR) m) := by
    intro m
    induction m with
    | zero => exact hinv0
    | succ m ihm =>
      show AllocInv MIN_ALLOCATABLE_ADDR R (FrameAllocator.alloc _).2
      exact (allocGo_inv _ R hRb _ _ ihm).1
  exact (allocGo_inv _ R hRb _ _ (hstep n)).2 f hf

/-- Witness for the amended C1 over the three-frame region of the
repository's own test, after zero preceding allocations. -/
theorem frame_alloc_invariant_witness :
    (∀ r ∈ slackRegions, r.entry_type = 1 → r.base + r.length ≤ 2 ^ 64 - 8192) ∧
    (FrameAllocator.alloc
      (allocN (FrameAllocator.new slackRegions MIN_ALLOCATABLE_ADDR) 0)).1 =
      some ⟨0x200000⟩ ∧
    (MIN_ALLOCATABLE_ADDR ≤ 0x200000 ∧ 0x200000 % 4096 = 0 ∧
      ∃ r ∈ slackRegions, r.entry_type = 1 ∧ r.base ≤ 0x200000 ∧
        0x200000 + 4096 ≤ r.base + r.length) :=
  ⟨by decide, by decide,
    frame_alloc_invariant slackRegions (by decide) 0 ⟨0x200000⟩ (by decide)⟩

/-- Usable regions listed in increasing, non-overlapping address order. -/
def RegionsSorted (R : List MemoryMapEntry) : Prop :=
  List.Pairwise
    (fun r1 r2 => r1.entry_type = 1 → r2.entry_type = 1 → r1.base + r1.length ≤ r2.base) R

lemma sorted_pair (R : List MemoryMapEntry) (hs : RegionsSorted R) (i k : Nat)
    (ri rk : MemoryMapEntry) (hik : i < k)
    (hi : R.get? i = some ri) (hk : R.get? k = some rk)
    (ht1 : ri.entry_type = 1) (ht2 : rk.entry_type = 1) :
    ri.base + ri.length ≤ rk.base := by
  rw [List.get?_eq_getElem?] at hi hk
  have hklen : k < R.length := by
    by_contra hlen
    rw [List.getElem?_eq_none (by omega)] at hk
    cases hk
  have hilen : i < R.length := by omega
  rw [List.getElem?_eq_getElem hilen] at hi
  rw [List.getElem?_eq_getElem hklen] at hk
  have := List.pairwise_iff_getElem.mp hs i k hilen hklen hik
  rw [Option.some_injective _ hi, Option.some_injective _ hk] at this
  exact this ht1 ht2

/-- The ordering invariant of the allocator cursor: the current region is
a usable region before `region_index`, and the cursor never exceeds the
clipped start of any usable region still to come. -/
def AllocOrd (M : Nat) (R : List MemoryMapEntry) (a : FrameAllocator) : Prop :=
  a.regions = R ∧ a.min_addr = M ∧ a.region_end ≤ 2 ^ 64 - 8192 ∧
    (a.next_addr < a.region_end →
      ∃ i r, R.get? i = some r ∧ i < a.region_index ∧ r.entry_type = 1 ∧
        a.region_end ≤ r.base + r.length) ∧
    (∀ k r, a.region_index ≤ k → R.get? k = some r → r.entry_type = 1 →
      a.next_addr ≤ max r.base M)

lemma selectGo_ord (M : Nat) (R : List MemoryMapEntry) (hR : RegionsBounded R)
    (hs : RegionsSorted R) :
    ∀ (fuel : Nat) (a : FrameAllocator), AllocOrd M R a →
      AllocOrd M R (selectGo a fuel) ∧
        ((selectGo a fuel).region_end = 0 ∨ a.next_addr ≤ (selectGo a fuel).next_addr) := by
  intro fuel
  induction fuel with
  | zero =>
    intro a hord
    refine ⟨⟨hord.1, hord.2.1, ?_, ?_, ?_⟩, Or.inl rfl⟩
    · show (0 : Nat) ≤ 2 ^ 64 - 8192
      exact Nat.zero_le _
    · show (0 : Nat) < 0 → _
      intro h
      exact absurd h (by decide)
    · intro k r _ _ _
      show (0 : Nat) ≤ max r.base M
      exact Nat.zero_le _
  | succ fuel ih =>
    intro a hord
    obtain ⟨hreg, hmin, hend, hcurr, hfut⟩ := hord
    cases hget : a.regions.get? a.region_index with
    | none =>
      have hbody : selectGo a (fuel + 1) = { a with next_addr := 0, region_end := 0 } := by
        conv_lhs => unfold selectGo; rw [hget]
      rw [hbody]
      refine ⟨⟨hreg, hmin, ?_, ?_, ?_⟩, Or.inl rfl⟩
      · show (0 : Nat) ≤ 2 ^ 64 - 8192
        exact Nat.zero_le _
      · show (0 : Nat) < 0 → _
        intro h
        exact absurd h (by decide)
      · intro k r _ _ _
        show (0 : Nat) ≤ max r.base M
        exact Nat.zero_le _
    | some region =>
      have hbody : selectGo a (fuel + 1) =
          (if region.entry_type ≠ 1 ∨ region.length = 0 then
            selectGo { a with region_index := a.region_index + 1 } fuel
          else if max region.base a.min_addr ≥
              min (region.base + region.length) (2 ^ 64 - 1) then
            selectGo { a with region_index := a.region_index + 1 } fuel
          else FrameAllocator.mk a.regions (a.region_index + 1)
            (max region.base a.min_addr)
            (min (region.base + region.length) (2 ^ 64 - 1)) a.min_addr) := by
        conv_lhs => unfold selectGo; rw [hget]
      rw [hbody]
      have hgetR : R.get? a.region_index = some region := by
        rw [← hreg]
        exact hget
      have hordSkip : AllocOrd M R { a with region_index := a.region_index + 1 } := by
        refine ⟨hreg, hmin, hend, ?_, ?_⟩
        · show a.next_addr < a.region_end → ∃ i r, R.get? i = some r ∧
            i < a.region_index + 1 ∧ r.entry_type = 1 ∧
            a.region_end ≤ r.base + r.length
          intro hlt
          obtain ⟨i, r, hir, hlt2, ht, hle⟩ := hcurr hlt
          exact ⟨i, r, hir, by omega, ht, hle⟩
        · show ∀ k r, a.region_index + 1 ≤ k → R.get? k = some r → r.entry_type = 1 →
            a.next_addr ≤ max r.base M
          intro k r hk hkr ht
          exact hfut k r (by omega) hkr ht
      by_cases hskip : region.entry_type ≠ 1 ∨ region.length = 0
      · rw [if_pos hskip]
        exact ih _ hordSkip
      · rw [if_neg hskip]
        push_neg at hskip
        obtain ⟨htype, hlen⟩ := hskip
        have hmem : region ∈ R := by
          rw [← hreg]
          exact List.get?_mem hget
        have hbound : region.base + region.length ≤ 2 ^ 64 - 8192 := hR region hmem htype
        by_cases hempty : max region.base a.min_addr ≥
            min (region.base + region.length) (2 ^ 64 - 1)
        · rw [if_pos hempty]
          exact ih _ hordSkip
        · rw [if_neg hempty]
          push_neg at hempty
          have hnext : a.next_addr ≤ max region.base M :=
            hfut a.region_index region (Nat.le_refl _) hgetR htype
          refine ⟨⟨hreg, hmin, ?_, ?_, ?_⟩, Or.inr ?_⟩
          · show min (region.base + region.length) (2 ^ 64 - 1) ≤ 2 ^ 64 - 8192
            omega
          · intro _
            refine ⟨a.region_index, region, hgetR, ?_, htype, ?_⟩
            · show a.region_index < a.region_index + 1
              omega
            · show min (region.base + region.length) (2 ^ 64 - 1) ≤
                region.base + region.length
              omega
          · show ∀ k r, a.region_index + 1 ≤ k → R.get? k = some r → r.entry_type = 1 →
              max region.base a.min_addr ≤ max r.base M
            intro k r hk hkr ht
            have hik : a.region_index < k := by omega
            have hsort := sorted_pair R hs a.region_index k region r hik hgetR hkr htype ht
            rw [hmin]
            omega
          · show a.next_addr ≤ max region.base a.min_addr
            rw [hmin]
            omega

/-- From an ordered state, `allocGo` preserves the ordering invariant and
every returned frame starts at or after the cursor, leaving the cursor
just past the returned frame. -/
lemma allocGo_ord (M : Nat) (R : List MemoryMapEntry) (hR : RegionsBounded R)
    (hs : RegionsSorted R) :
    ∀ (fuel : Nat) (a : FrameAllocator), AllocOrd M R a →
      AllocOrd M R (allocGo a fuel).2 ∧
        (∀ f, (allocGo a fuel).1 = some f →
          a.next_addr ≤ f.start ∧ (allocGo a fuel).2.next_addr = f.start + 4096) := by
  intro fuel
  induction fuel with
  | zero =>
    intro a hord
    exact ⟨hord, by intro f hf; cases hf⟩
  | succ fuel ih =>
    intro a hord
    set b := if a.next_addr ≥ a.region_end then select_next_region a else a with hb
    have hordB : AllocOrd M R b ∧ (b.region_end = 0 ∨ a.next_addr ≤ b.next_addr) := by
      rw [hb]
      by_cases hsel : a.next_addr ≥ a.region_end
      · rw [if_pos hsel]
        exact selectGo_ord M R hR hs _ a hord
      · rw [if_neg hsel]
        exact ⟨hord, Or.inr (Nat.le_refl _)⟩
    have hbody : allocGo a (fuel + 1) =
        (if b.next_addr ≥ b.region_end then (none, b)
        else if (align_up b.next_addr FRAME_SIZE + FRAME_SIZE) % 2 ^ 64 > b.region_end then
          allocGo { b with next_addr := b.region_end } fuel
        else (some ⟨align_up b.next_addr FRAME_SIZE⟩,
          { b with next_addr := (align_up b.next_addr FRAME_SIZE + FRAME_SIZE) % 2 ^ 64 })) := by
      rw [hb]
      rfl
    rw [hbody]
    by_cases hfin : b.next_addr ≥ b.region_end
    · rw [if_pos hfin]
      exact ⟨hordB.1, by intro f hf; cases hf⟩
    · rw [if_neg hfin]
      push_neg at hfin
      obtain ⟨⟨hregB, hminB, hendB, hcurB, hfutB⟩, hmono⟩ := hordB
      have hanext : a.next_addr ≤ b.next_addr := by
        rcases hmono with h0 | hle
        · omega
        · exact hle
      obtain ⟨i, ri, hiR, hii, hit, hile⟩ := hcurB hfin
      have hnwrap : b.next_addr + 4095 < 2 ^ 64 := by omega
      have hfs_ge : b.next_addr ≤ align_up b.next_addr FRAME_SIZE := by
        have := align_up_ge b.next_addr hnwrap
        simpa [FRAME_SIZE] using this
      have hfs_le : align_up b.next_addr FRAME_SIZE ≤ b.next_addr + 4095 := by
        have := align_up_le b.next_addr hnwrap
        simpa [FRAME_SIZE] using this
      set fs := align_up b.next_addr FRAME_SIZE with hfs
      have hfs_small : fs + FRAME_SIZE < 2 ^ 64 := by
        simp only [FRAME_SIZE]
        omega
      have hmod : (fs + FRAME_SIZE) % 2 ^ 64 = fs + FRAME_SIZE :=
        Nat.mod_eq_of_lt hfs_small
      rw [hmod]
      have hFS : FRAME_SIZE = 4096 := rfl
      have hendfut : ∀ k r, b.region_index ≤ k → R.get? k = some r → r.entry_type = 1 →
          b.region_end ≤ max r.base M := by
        intro k r hk hkr ht
        have hik : i < k := by omega
        have hsort := sorted_pair R hs i k ri r hik hiR hkr hit ht
        omega
      by_cases habandon : fs + FRAME_SIZE > b.region_end
      · rw [if_pos habandon]
        have hord2 : AllocOrd M R { b with next_addr := b.region_end } := by
          refine ⟨hregB, hminB, ?_, ?_, ?_⟩
          · show b.region_end ≤ 2 ^ 64 - 8192
            omega
          · show b.region_end < b.region_end → _
            intro h
            exact absurd h (by omega)
          · intro k r hk hkr ht
            show b.region_end ≤ max r.base M
            exact hendfut k r hk hkr ht
        obtain ⟨hord3, hframe3⟩ := ih _ hord2
        refine ⟨hord3, ?_⟩
        intro f hf
        obtain ⟨hge, hnext⟩ := hframe3 f hf
        refine ⟨?_, hnext⟩
        have : b.region_end ≤ f.start := hge
        omega
      · rw [if_neg habandon]
        push_neg at habandon
        rw [hFS] at habandon
        constructor
        · show AllocOrd M R { b with next_addr := fs + FRAME_SIZE }
          refine ⟨hregB, hminB, ?_, ?_, ?_⟩
          · show b.region_end ≤ 2 ^ 64 - 8192
            omega
          · show fs + FRAME_SIZE < b.region_end → _
            intro hlt
            exact ⟨i, ri, hiR, hii, hit, hile⟩
          · intro k r hk hkr ht
            show fs + FRAME_SIZE ≤ max r.base M
            have := hendfut k r hk hkr ht
            rw [hFS]
            omega
        · intro f hf
          have hf2 : some (PhysicalFrame.mk fs) = some f := hf
          injection hf2 with hf2
          subst hf2
          refine ⟨?_, ?_⟩
          · show a.next_addr ≤ fs
            omega
          · show fs + FRAME_SIZE = fs + 4096
            rw [hFS]

/-- C5 counterexample: with the high usable region listed before the low
one, the first two allocations are `0x300000` then `0x200000`; and even
with regions sorted by address, a region touching the top of the address
space wraps and yields `0x200000` then `0`. -/
theorem alloc_not_increasing_counterexample :
    ((FrameAllocator.new unsortedRegions MIN_ALLOCATABLE_ADDR).alloc.1 =
        some ⟨0x300000⟩ ∧
      ((FrameAllocator.new unsortedRegions MIN_ALLOCATABLE_ADDR).alloc.2).alloc.1 =
        some ⟨0x200000⟩ ∧
      ¬((0x300000 : Nat) < 0x200000)) ∧
    ((FrameAllocator.new sortedWrapRegions MIN_ALLOCATABLE_ADDR).alloc.1 =
        some ⟨0x200000⟩ ∧
      ((FrameAllocator.new sortedWrapRegions MIN_ALLOCATABLE_ADDR).alloc.2).alloc.1 =
        some ⟨0⟩ ∧
      ¬((0x200000 : Nat) < 0)) := by
  refine ⟨⟨by decide, by decide, by decide⟩, ⟨by decide, by decide, by decide⟩⟩

/-- C5 amended: provided the usable regions are listed in increasing,
non-overlapping address order and each ends at least two frames below
`2^64`, the start addresses of successive successful allocations are
strictly increasing. -/
theorem alloc_strictly_increasing (R : List MemoryMapEntry)
    (hR : ∀ r ∈ R, r.entry_type = 1 → r.base + r.length ≤ 2 ^ 64 - 8192)
    (hs : List.Pairwise
      (fun r1 r2 => r1.entry_type = 1 → r2.entry_type = 1 →
        r1.base + r1.length ≤ r2.base) R)
    (n : Nat) (f1 f2 : PhysicalFrame)
    (h1 : (FrameAllocator.alloc (allocN (FrameAllocator.new R MIN_ALLOCATABLE_ADDR) n)).1 =
      some f1)
    (h2 : (FrameAllocator.alloc
      (allocN (FrameAllocator.new R MIN_ALLOCATABLE_ADDR) (n + 1))).1 = some f2) :
    f1.start < f2.start := by
  have hRb : RegionsBounded R := hR
  have hss : RegionsSorted R := hs
  have hord0 : AllocOrd MIN_ALLOCATABLE_ADDR R
      (FrameAllocator.new R MIN_ALLOCATABLE_ADDR) := by
    have hini : AllocOrd MIN_ALLOCATABLE_ADDR R
        ⟨R, 0, 0, 0, MIN_ALLOCATABLE_ADDR⟩ := by
      refine ⟨rfl, rfl, Nat.zero_le _, ?_, ?_⟩
      · intro h
        exact absurd (show (0 : Nat) < 0 from h) (by decide)
      · intro k r _ _ _
        exact Nat.zero_le _
    exact (selectGo_ord _ R hRb hss _ _ hini).1
  have hstep : ∀ m, AllocOrd MIN_ALLOCATABLE_ADDR R
      (allocN (FrameAllocator.new R MIN_ALLOCATABLE_ADDR) m) := by
    intro m
    induction m with
    | zero => exact hord0
    | succ m ihm =>
      show AllocOrd MIN_ALLOCATABLE_ADDR R (FrameAllocator.alloc _).2
      exact (allocGo_ord _ R hRb hss _ _ ihm).1
  have hA := allocGo_ord MIN_ALLOCATABLE_ADDR R hRb hss
    ((allocN (FrameAllocator.new R MIN_ALLOCATABLE_ADDR) n).regions.length -
      (allocN (FrameAllocator.new R MIN_ALLOCATABLE_ADDR) n).region_index + 1) _ (hstep n)
  obtain ⟨_, hnexteq⟩ := hA.2 f1 h1
  have hB := allocGo_ord MIN_ALLOCATABLE_ADDR R hRb hss
    ((allocN (FrameAllocator.new R MIN_ALLOCATABLE_ADDR) (n + 1)).regions.length -
      (allocN (FrameAllocator.new R MIN_ALLOCATABLE_ADDR) (n + 1)).region_index + 1)
    _ (hstep (n + 1))
  obtain ⟨hge2, _⟩ := hB.2 f2 h2
  have hchain : (allocN (FrameAllocator.new R MIN_ALLOCATABLE_ADDR) (n + 1)).next_addr =
      f1.start + 4096 := hnexteq
  omega

/-- Witness for the amended C5: the repository test's three-frame region,
first and second allocations. -/
theorem alloc_strictly_increasing_witness :
    (∀ r ∈ slackRegions, r.entry_type = 1 → r.base + r.length ≤ 2 ^ 64 - 8192) ∧
    ((FrameAllocator.alloc
        (allocN (FrameAllocator.new [⟨0x200000, 0x3000, 1, 0⟩] MIN_ALLOCATABLE_ADDR) 0)).1 =
      some ⟨0x200000⟩ ∧
    (FrameAllocator.alloc
        (allocN (FrameAllocator.new [⟨0x200000, 0x3000, 1, 0⟩] MIN_ALLOCATABLE_ADDR) 1)).1 =
      some ⟨0x201000⟩ ∧
    (0x200000 : Nat) < 0x201000) :=
  ⟨by decide, by decide, by decide,
    alloc_strictly_increasing [⟨0x200000, 0x3000, 1, 0⟩] (by decide)
      (by simp [List.pairwise_iff_getElem]) 0 ⟨0x200000⟩ ⟨0x201000⟩
      (by decide) (by decide)⟩

end EresOS
